import Mathlib

/-!
The token-bucket kernel of `qos` (`src/include/qos_kernal.h`, `src/src/qos_kernal.cpp`).

A shallow embedding of `mixer::qos::QosKernal` and proofs about it.

* An `int64_t` is an integer between `-2^63` and `2^63 - 1`. Addition, subtraction and negation
  wrap modulo `2^64`, as `fetch_add` and `fetch_sub` of `std::atomic<int64_t>` do and as the
  compiled arithmetic on the locals does.
* The atomics are plain fields: the embedding is the sequential semantics, one call or one
  loop iteration at a time.
* `_user_map` is an association list in insertion order. `find`, `emplace` and the write
  through the iterator returned by `find` act on the first entry that carries the key, and
  `emplace` keeps the keys distinct, as `std::unordered_map` does. The two loops over
  `_user_map` act entry by entry or accumulate a wrapped sum, so their result does not depend
  on the order of iteration.
* A `std::thread` member is the flag `joinable()`, with a counter of the loops started for
  it; assigning a new thread to a joinable member calls `std::terminate`, and a call that
  ends this way has no status (`none`).
-/

namespace Qos

/-- Values of the C type `int64_t`: the integers from `-2^63` to `2^63 - 1`. -/
abbrev int64_t : Type :=
  { x : Int // -9223372036854775808 ≤ x ∧ x ≤ 9223372036854775807 }

/-- Two's complement reduction of an integer to 64 bits. -/
def wrap64 (x : Int) : int64_t :=
  ⟨(x + 9223372036854775808) % 18446744073709551616 - 9223372036854775808,
    ⟨by omega, by omega⟩⟩

/-- Literals of type `int64_t`. -/
instance instOfNatInt64 {n : Nat} : OfNat int64_t n := ⟨wrap64 n⟩

/-- Wrapping addition of `int64_t`. -/
instance instAddInt64 : Add int64_t := ⟨fun a b => wrap64 (a.val + b.val)⟩

/-- Wrapping subtraction of `int64_t`. -/
instance instSubInt64 : Sub int64_t := ⟨fun a b => wrap64 (a.val - b.val)⟩

/-- Wrapping negation of `int64_t`. -/
instance instNegInt64 : Neg int64_t := ⟨fun a => wrap64 (-a.val)⟩

/-- The smaller of two values as `std::min(a, b)` computes it. -/
def min64 (a b : int64_t) : int64_t := if b.val < a.val then b else a

/-- The larger of two values as `std::max(a, b)` computes it. -/
def max64 (a b : int64_t) : int64_t := if a.val < b.val then b else a

/-- Status codes of `init` and of the loops (`enum EnumQosStatus`). -/
inductive EnumQosStatus where
  | QOS_E_SUCC
  | QOS_E_ERR
  deriving DecidableEq, Repr

/-- Tiers returned by `get_token` (`enum EnumQosTokenType`). -/
inductive EnumQosTokenType where
  | QOS_TOKEN_ERR
  | QOS_TOKEN_GREEN
  | QOS_TOKEN_YELLOW
  | QOS_TOKEN_ORANGE
  | QOS_TOKEN_RED
  deriving DecidableEq, Repr

open EnumQosStatus EnumQosTokenType

/-- Bucket of one tenant (`struct QosKernal::UserNode`). -/
structure UserNode where
  user_name : String
  product : String
  qos_limit : int64_t
  c_bucket : int64_t
  e_bucket : int64_t
  running : Bool
  deriving DecidableEq, Repr

/-- Registry type of `_user_map`: key and node, in insertion order. -/
abbrev UserMap := List (String × UserNode)

/-- Kernel state (the data members of `class QosKernal`). `_add_token_thread` and
`_idle_adjust_thread` say whether the `std::thread` member is joinable; `add_token_launched`
and `idle_adjust_launched` count the loops started for them. -/
structure QosKernal where
  _total_qos : int64_t
  _user_map : UserMap
  _add_token_thread_running : Bool
  _add_token_thread : Bool
  add_token_launched : Nat
  _use_idle_flag : Bool
  _idle_adjust_thread_running : Bool
  _idle_adjust_thread : Bool
  idle_adjust_launched : Nat
  _idle_bucket : int64_t
  _idle_qos_limit : int64_t
  deriving DecidableEq, Repr

/-- Constructor `QosKernal::QosKernal()`: everything zero, false or empty, no thread. -/
def QosKernal.new : QosKernal :=
  { _total_qos := 0
    _user_map := []
    _add_token_thread_running := false
    _add_token_thread := false
    add_token_launched := 0
    _use_idle_flag := false
    _idle_adjust_thread_running := false
    _idle_adjust_thread := false
    idle_adjust_launched := 0
    _idle_bucket := 0
    _idle_qos_limit := 0 }

/-- Key of a tenant, `user_name + "\t" + product` (`QosKernal::make_key`). -/
def make_key (user_name product : String) : String :=
  user_name ++ "\t" ++ product

/-- Lookup `_user_map.find(key)`: the node stored under `key`, if any. -/
def find : UserMap → String → Option UserNode
  | [], _ => none
  | (k, u) :: rest, key => if k = key then some u else find rest key

/-- Write through the iterator that `find(key)` returned: the node stored under `key`
becomes `node`; the keys and the other nodes stay. -/
def store : UserMap → String → UserNode → UserMap
  | [], _, _ => []
  | (k, u) :: rest, key, node =>
    if k = key then (k, node) :: rest else (k, u) :: store rest key node

/-- Insertion `_user_map.emplace(key, node)`: nothing happens when `key` is already present. -/
def emplace (m : UserMap) (key : String) (node : UserNode) : UserMap :=
  match find m key with
  | some _ => m
  | none => m ++ [(key, node)]

/-- Bucket part of `QosKernal::get_token` (lines 62-76): the tier and the node afterwards. -/
def get_token_node (user_node : UserNode) (token_num : int64_t) :
    EnumQosTokenType × UserNode :=
  -- int64_t token = user_node.c_bucket.fetch_sub(token_num) - token_num;
  let token := user_node.c_bucket - token_num
  let n1 := { user_node with c_bucket := user_node.c_bucket - token_num }
  let r :=
    if token.val ≥ 0 then
      (QOS_TOKEN_GREEN, n1)
    else
      -- user_node.c_bucket.fetch_add(token_num);
      let n2 := { n1 with c_bucket := n1.c_bucket + token_num }
      -- token = user_node.e_bucket.fetch_sub(token_num) - token_num;
      let token := n2.e_bucket - token_num
      let n3 := { n2 with e_bucket := n2.e_bucket - token_num }
      if token.val ≥ 0 then
        (QOS_TOKEN_YELLOW, n3)
      else
        -- user_node.e_bucket.fetch_add(token_num);
        (QOS_TOKEN_RED, { n3 with e_bucket := n3.e_bucket + token_num })
  -- user_node.running.store(true);
  (r.1, { r.2 with running := true })

/-- Admission call `QosKernal::get_token`: the returned tier and the kernel afterwards. -/
def get_token (s : QosKernal) (user_name product : String) (token_num : int64_t) :
    EnumQosTokenType × QosKernal :=
  match find s._user_map (make_key user_name product) with
  | none => (QOS_TOKEN_ERR, s)
  | some user_node =>
    let r := get_token_node user_node token_num
    let s1 := { s with _user_map := store s._user_map (make_key user_name product) r.2 }
    if s1._use_idle_flag && r.1 == QOS_TOKEN_RED then
      -- token = _idle_bucket.fetch_sub(token_num) - token_num;
      let token := s1._idle_bucket - token_num
      let s2 := { s1 with _idle_bucket := s1._idle_bucket - token_num }
      if token.val ≥ 0 then
        (QOS_TOKEN_ORANGE, s2)
      else
        -- _idle_bucket.fetch_add(token_num);
        (r.1, { s2 with _idle_bucket := s2._idle_bucket + token_num })
    else
      (r.1, s1)

/-- Successive `get_token` calls of one tenant with sizes `ns`, nothing else in between:
the tiers in call order and the kernel after the last call. -/
def get_tokens (s : QosKernal) (user_name product : String) :
    List int64_t → List EnumQosTokenType × QosKernal
  | [] => ([], s)
  | n :: ns =>
    let r := get_token s user_name product n
    let rest := get_tokens r.2 user_name product ns
    (r.1 :: rest.1, rest.2)

/-- Successive `get_token` calls `(user_name, product, token_num)` of any tenants, nothing else
in between: the tiers in call order and the kernel after the last call. -/
def get_token_calls (s : QosKernal) :
    List (String × String × int64_t) → List EnumQosTokenType × QosKernal
  | [] => ([], s)
  | call :: calls =>
    let r := get_token s call.1 call.2.1 call.2.2
    let rest := get_token_calls r.2 calls
    (r.1 :: rest.1, rest.2)

/-- Body of the `for` loop of `QosKernal::add_token` (lines 116-123) on one node. -/
def add_token_node (user_node : UserNode) : UserNode :=
  let c_bucket_left := user_node.c_bucket
  let n1 := { user_node with c_bucket := user_node.qos_limit }
  let e_bucket_left := n1.e_bucket
  let c_bucket_left : int64_t := if c_bucket_left.val > 0 then c_bucket_left else 0
  let e_bucket_left : int64_t := if e_bucket_left.val > 0 then e_bucket_left else 0
  { n1 with e_bucket := min64 n1.qos_limit (c_bucket_left + e_bucket_left) }

/-- One iteration of the `while` loop of `QosKernal::add_token` (lines 115-129), the kernel
being alive: the Replenisher cycle. -/
def add_token (s : QosKernal) : QosKernal :=
  let s1 :=
    { s with
      _user_map := s._user_map.map (fun (obj : String × UserNode) =>
        (obj.1, add_token_node obj.2)) }
  if s1._use_idle_flag then
    { s1 with _idle_bucket := s1._idle_qos_limit }
  else
    s1

/-- The `for` loop of `QosKernal::adjust_idle_token` (lines 143-149), started with the
accumulator `qos_using`: its final value and the registry afterwards. -/
def adjust_idle_loop : UserMap → int64_t → int64_t × UserMap
  | [], qos_using => (qos_using, [])
  | (k, user_node) :: rest, qos_using =>
    let qos_using := if user_node.running then qos_using + user_node.qos_limit else qos_using
    let r := adjust_idle_loop rest qos_using
    (r.1, (k, { user_node with running := false }) :: r.2)

/-- One iteration of the `while` loop of `QosKernal::adjust_idle_token` (lines 142-151), the
kernel being alive: the Idle Estimator cycle. -/
def adjust_idle_token (s : QosKernal) : QosKernal :=
  let r := adjust_idle_loop s._user_map 0
  { s with _user_map := r.2, _idle_qos_limit := max64 (s._total_qos - r.1) 0 }

/-- Second `if` of `QosKernal::thread_run` (lines 165-170): the launch of the Idle Estimator
loop and the return. The result has no status when `std::terminate` is called. -/
def thread_run_idle_adjust (s : QosKernal) : Option EnumQosStatus × QosKernal :=
  if s._use_idle_flag && !s._idle_adjust_thread_running then
    -- std::thread([wp]() { adjust_idle_token(wp); }) starts a loop
    let s1 := { s with idle_adjust_launched := s.idle_adjust_launched + 1 }
    -- _idle_adjust_thread = ...: std::terminate() when the member is joinable
    if s1._idle_adjust_thread then
      (none, s1)
    else
      (some QOS_E_SUCC, { s1 with _idle_adjust_thread := true })
  else
    (some QOS_E_SUCC, s)

/-- Launch of the loops, `QosKernal::thread_run`: the returned status and the kernel
afterwards. The result has no status when the assignment to a joinable `std::thread` member
calls `std::terminate`; the kernel is then the one at that point. -/
def thread_run (s : QosKernal) : Option EnumQosStatus × QosKernal :=
  if !s._add_token_thread_running then
    -- std::thread([wp]() { add_token(wp); }) starts a loop
    let s1 := { s with add_token_launched := s.add_token_launched + 1 }
    -- _add_token_thread = ...: std::terminate() when the member is joinable
    if s1._add_token_thread then
      (none, s1)
    else
      thread_run_idle_adjust { s1 with _add_token_thread := true }
  else
    thread_run_idle_adjust s

/-- Modelled from the spec: one tenant record of the configuration (`comcfg::ConfigUnit`,
from `Configure.h`, which is not part of the sources). Each field is the result of the read
`to_cstr()` or `to_int64()`; `none` is a read that raises `comcfg::ConfigException`. -/
structure UserConf where
  user_name : Option String
  product : Option String
  qos_limit : Option int64_t
  deriving DecidableEq, Repr

/-- Modelled from the spec: the configuration given to `init` (`comcfg::Configure`, from
`Configure.h`, which is not part of the sources): the global `total_qos` and `use_idle`
(read with `to_int32()`), and the ordered list `users`; `none` is a read that raises
`comcfg::ConfigException`. -/
structure Configure where
  total_qos : Option int64_t
  use_idle : Option Int
  users : List UserConf
  deriving DecidableEq, Repr

/-- The `for` loop of `QosKernal::init` (lines 32-44) over the tenant records: `false` and
the registry built so far when a read raises, `true` and the final registry otherwise. -/
def init_users : List UserConf → UserMap → Bool × UserMap
  | [], m => (true, m)
  | user_conf :: rest, m =>
    match user_conf.user_name with
    | none => (false, m)
    | some user_name =>
      match user_conf.product with
      | none => (false, m)
      | some product =>
        match user_conf.qos_limit with
        | none => (false, m)
        | some qos_limit =>
          let user_node : UserNode :=
            { user_name := user_name
              product := product
              qos_limit := qos_limit
              c_bucket := qos_limit
              e_bucket := qos_limit
              running := false }
          init_users rest (emplace m (make_key user_name product) user_node)

/-- Initialisation `QosKernal::init`: the returned status and the kernel afterwards. The
result has no status when `thread_run` ends in `std::terminate`. -/
def init (s : QosKernal) (conf : Configure) : Option EnumQosStatus × QosKernal :=
  match conf.total_qos with
  | none => (some QOS_E_ERR, s)
  | some total_qos =>
    let s1 := { s with _total_qos := total_qos }
    match conf.use_idle with
    | none => (some QOS_E_ERR, s1)
    | some use_idle =>
      let s2 := { s1 with _use_idle_flag := decide (use_idle ≠ 0) }
      let r := init_users conf.users s2._user_map
      let s3 := { s2 with _user_map := r.2 }
      if r.1 then
        -- thread_run(); return QOS_E_SUCC;
        let t := thread_run s3
        (t.1.map (fun _ => QOS_E_SUCC), t.2)
      else
        (some QOS_E_ERR, s3)

/-- States a kernel goes through: `init` on a constructed kernel with the configuration
`conf`, then any sequence of `get_token` calls, Replenisher cycles and Idle Estimator
cycles. -/
inductive Reachable (conf : Configure) : QosKernal → Prop where
  | init : Reachable conf (init QosKernal.new conf).2
  | get_token (s : QosKernal) (user_name product : String) (token_num : int64_t) :
      Reachable conf s → Reachable conf (get_token s user_name product token_num).2
  | add_token (s : QosKernal) : Reachable conf s → Reachable conf (add_token s)
  | adjust_idle_token (s : QosKernal) :
      Reachable conf s → Reachable conf (adjust_idle_token s)

/-- States of a run in which every `get_token` call has a positive token count: `init` on a
constructed kernel with the configuration `conf`, then any sequence of such calls, Replenisher
cycles and Idle Estimator cycles. -/
inductive ReachablePositive (conf : Configure) : QosKernal → Prop where
  | init : ReachablePositive conf (init QosKernal.new conf).2
  | get_token (s : QosKernal) (user_name product : String) (token_num : int64_t) :
      0 < token_num.val → ReachablePositive conf s →
      ReachablePositive conf (get_token s user_name product token_num).2
  | add_token (s : QosKernal) : ReachablePositive conf s → ReachablePositive conf (add_token s)
  | adjust_idle_token (s : QosKernal) :
      ReachablePositive conf s → ReachablePositive conf (adjust_idle_token s)

/-- Sum of `qos_limit` over the nodes of the registry whose `running` flag is set. -/
def active_quota (m : UserMap) : Int :=
  ((m.filter (fun (obj : String × UserNode) => obj.2.running)).map
    (fun (obj : String × UserNode) => obj.2.qos_limit.val)).sum

/-- Sum of `qos_limit` over all the nodes of the registry. -/
def total_quota (m : UserMap) : Int :=
  (m.map (fun (obj : String × UserNode) => obj.2.qos_limit.val)).sum

/-- Sum of the sizes of the calls that went to the key `key` and were answered
`QOS_TOKEN_GREEN` or `QOS_TOKEN_YELLOW`, the calls being paired with their tiers in order. -/
def granted_sum (key : String) :
    List (String × String × int64_t) → List EnumQosTokenType → Int
  | call :: calls, tier :: tiers =>
    (if make_key call.1 call.2.1 = key ∧
        (tier = QOS_TOKEN_GREEN ∨ tier = QOS_TOKEN_YELLOW) then call.2.2.val else 0)
      + granted_sum key calls tiers
  | _, _ => 0

/-- Sum of the sizes of the calls, of any tenant, that were answered `QOS_TOKEN_ORANGE`, the
calls being paired with their tiers in order. -/
def idle_granted_sum : List (String × String × int64_t) → List EnumQosTokenType → Int
  | call :: calls, tier :: tiers =>
    (if tier = QOS_TOKEN_ORANGE then call.2.2.val else 0) + idle_granted_sum calls tiers
  | _, _ => 0

/-- Every node of the registry has a quota that is not negative. -/
def QuotasNonneg (m : UserMap) : Prop :=
  ∀ obj ∈ m, 0 ≤ obj.2.qos_limit.val

/-- Every value the configuration supplies for the budget and for a quota is not negative. -/
def ConfNonneg (conf : Configure) : Prop :=
  (∀ t, conf.total_qos = some t → 0 ≤ t.val) ∧
  (∀ c ∈ conf.users, ∀ q, c.qos_limit = some q → 0 ≤ q.val)

/-- Every entry of the registry is stored under the key made of the names in its node. -/
def KeysWellFormed (m : UserMap) : Prop :=
  ∀ obj ∈ m, obj.1 = make_key obj.2.user_name obj.2.product

/-- A tenant record with a read that raises. -/
def Unreadable (c : UserConf) : Prop :=
  c.user_name = none ∨ c.product = none ∨ c.qos_limit = none

/-- Both buckets of the node are between 0 and its quota. -/
def InRange (u : UserNode) : Prop :=
  0 ≤ u.c_bucket.val ∧ u.c_bucket.val ≤ u.qos_limit.val ∧
  0 ≤ u.e_bucket.val ∧ u.e_bucket.val ≤ u.qos_limit.val

/-- Example configuration: budget 100, idle pool enabled, one tenant `("A", "x")` of
quota 10. -/
def conf_A : Configure :=
  { total_qos := some 100
    use_idle := some 1
    users := [{ user_name := some "A", product := some "x", qos_limit := some 10 }] }

/-- Example kernel: a constructed kernel after `init` with `conf_A`. -/
def kernel_A : QosKernal := (init QosKernal.new conf_A).2

/-- Example configuration: `conf_A` with the idle pool disabled. -/
def conf_A_no_idle : Configure := { conf_A with use_idle := some 0 }

/-- Example kernel: a constructed kernel after `init` with `conf_A_no_idle`. -/
def kernel_A_no_idle : QosKernal := (init QosKernal.new conf_A_no_idle).2

/-- Example node: the bucket of tenant `("A", "x")` in `kernel_A`. -/
def node_A : UserNode :=
  { user_name := "A", product := "x", qos_limit := 10, c_bucket := 10, e_bucket := 10,
    running := false }

/-- Example configuration: a negative budget and no tenant. -/
def conf_negative_budget : Configure :=
  { total_qos := some (-1), use_idle := some 1, users := [] }

/-- Example configuration: budget 100 and one tenant `("A", "x")` of quota `-5`. -/
def conf_negative_quota : Configure :=
  { total_qos := some 100
    use_idle := some 1
    users := [{ user_name := some "A", product := some "x", qos_limit := some (-5) }] }

/-- Example configuration: `conf_negative_quota` with the idle pool disabled. -/
def conf_negative_quota_no_idle : Configure :=
  { conf_negative_quota with use_idle := some 0 }

/-- Example configuration: budget 100 and one tenant `("A", "x")` whose quota is the largest
`int64_t`, `2^63 - 1`. -/
def conf_max : Configure :=
  { total_qos := some 100
    use_idle := some 1
    users := [{ user_name := some "A", product := some "x",
                qos_limit := some 9223372036854775807 }] }

/-- Example configuration: budget 100 and one tenant `("A", "x")` of quota `2^62`. -/
def conf_quota_2_62 : Configure :=
  { total_qos := some 100
    use_idle := some 1
    users := [{ user_name := some "A", product := some "x",
                qos_limit := some 4611686018427387904 }] }

/-- Example configuration: budget 100 and one tenant `("A", "x")` whose quota is the smallest
`int64_t`, `-2^63`. -/
def conf_min : Configure :=
  { total_qos := some 100
    use_idle := some 1
    users := [{ user_name := some "A", product := some "x",
                qos_limit := some (-9223372036854775808) }] }

/-- Example configuration: budget 100 and two tenants `("A", "x")` and `("B", "x")` whose
quota is the largest `int64_t`, `2^63 - 1`. -/
def conf_two_max : Configure :=
  { total_qos := some 100
    use_idle := some 1
    users := [{ user_name := some "A", product := some "x",
                qos_limit := some 9223372036854775807 },
              { user_name := some "B", product := some "x",
                qos_limit := some 9223372036854775807 }] }

/-- Example kernel: built by `init` from `conf_two_max`, then one call of size 1 by each of
the two tenants. -/
def kernel_two_max : QosKernal :=
  (get_token (get_token (init QosKernal.new conf_two_max).2 "A" "x" 1).2 "B" "x" 1).2

/-- Example configuration: two records with the key of `("A", "x")`, of quota 1 then 2. -/
def conf_duplicate : Configure :=
  { total_qos := some 100
    use_idle := some 0
    users := [{ user_name := some "A", product := some "x", qos_limit := some 1 },
              { user_name := some "A", product := some "x", qos_limit := some 2 }] }

/-- Example configuration: one tenant whose name holds a tab, `("a\tb", "c")`, of quota 10. -/
def conf_tab : Configure :=
  { total_qos := some 100
    use_idle := some 0
    users := [{ user_name := some "a\tb", product := some "c", qos_limit := some 10 }] }

/-- Example configuration: the record of `("A", "x")`, quota 10, then a record whose
`qos_limit` cannot be read. -/
def conf_bad_second : Configure :=
  { total_qos := some 100
    use_idle := some 1
    users := [{ user_name := some "A", product := some "x", qos_limit := some 10 },
              { user_name := some "B", product := some "x", qos_limit := none }] }

/-- Example node: tenant `("B", "x")` of quota 5, both buckets full, not running. -/
def node_B : UserNode :=
  { user_name := "B", product := "x", qos_limit := 5, c_bucket := 5, e_bucket := 5,
    running := false }

/-- Example configuration: budget 3, idle pool disabled, the single tenant `("B", "x")` of
quota 5. -/
def conf_B : Configure :=
  { total_qos := some 3
    use_idle := some 0
    users := [{ user_name := some "B", product := some "x", qos_limit := some 5 }] }

/-- Example configuration: budget 100, idle pool disabled, the single tenant `("B", "x")` of
quota 5. -/
def conf_B_100 : Configure := { conf_B with total_qos := some 100 }

/-- Example configuration: budget 0, idle pool disabled, two tenants of quota `2^62` and the
tenant `("B", "x")` of quota 5. -/
def conf_B_large : Configure :=
  { total_qos := some 0
    use_idle := some 0
    users := [{ user_name := some "X", product := some "x",
                qos_limit := some 4611686018427387904 },
              { user_name := some "Y", product := some "x",
                qos_limit := some 4611686018427387904 },
              { user_name := some "B", product := some "x", qos_limit := some 5 }] }

/-- Example configuration: budget 100, idle pool disabled, one tenant of quota `-2^63` and the
tenant `("B", "x")` of quota 5. -/
def conf_B_min : Configure :=
  { total_qos := some 100
    use_idle := some 0
    users := [{ user_name := some "X", product := some "x",
                qos_limit := some (-9223372036854775808) },
              { user_name := some "B", product := some "x", qos_limit := some 5 }] }

/-- Example kernel: built by `init` from `conf_B_min`, then one call of size 1 by the tenant of
quota `-2^63`; `("B", "x")` has not called. -/
def kernel_B_min : QosKernal := (get_token (init QosKernal.new conf_B_min).2 "X" "x" 1).2

/-- Example kernel: built by `init` from `conf_B_large`, then one call of size 1 by each of the
two large tenants; `("B", "x")` has not called. -/
def kernel_B_large : QosKernal :=
  (get_token (get_token (init QosKernal.new conf_B_large).2 "X" "x" 1).2 "Y" "x" 1).2

/-! ## Arithmetic of `int64_t` -/

theorem val_wrap64 (x : Int) :
    (wrap64 x).val =
      (x + 9223372036854775808) % 18446744073709551616 - 9223372036854775808 := rfl

theorem sub_val (a b : int64_t) :
    (a - b).val =
      (a.val - b.val + 9223372036854775808) % 18446744073709551616 - 9223372036854775808 :=
  rfl

theorem add_val (a b : int64_t) :
    (a + b).val =
      (a.val + b.val + 9223372036854775808) % 18446744073709551616 - 9223372036854775808 :=
  rfl

theorem zero_val : (0 : int64_t).val = 0 := rfl

theorem sub_add_cancel64 (a n : int64_t) : a - n + n = a := by
  apply Subtype.ext
  have h1 := a.property
  have h2 := n.property
  simp only [add_val, sub_val]
  omega

theorem sub_val_exact (a b : int64_t)
    (h1 : -9223372036854775808 ≤ a.val - b.val) (h2 : a.val - b.val ≤ 9223372036854775807) :
    (a - b).val = a.val - b.val := by
  rw [sub_val]
  omega

theorem add_val_exact (a b : int64_t)
    (h1 : -9223372036854775808 ≤ a.val + b.val) (h2 : a.val + b.val ≤ 9223372036854775807) :
    (a + b).val = a.val + b.val := by
  rw [add_val]
  omega

theorem wrap64_val_exact (x : Int)
    (h1 : -9223372036854775808 ≤ x) (h2 : x ≤ 9223372036854775807) : (wrap64 x).val = x := by
  rw [val_wrap64]
  omega

/-- A subtraction of a positive amount from a value that is not negative does not wrap. -/
theorem sub_val_of_nonneg (a n : int64_t) (ha : 0 ≤ a.val) (hn : 0 < n.val) :
    (a - n).val = a.val - n.val := by
  have h2 := n.property
  have h1 := a.property
  exact sub_val_exact a n (by omega) (by omega)

theorem max64_val (a : int64_t) : (max64 a 0).val = max a.val 0 := by
  unfold max64
  split
  · rename_i h
    rw [zero_val] at h ⊢
    omega
  · rename_i h
    rw [zero_val] at h
    omega

theorem min64_val (a b : int64_t) : (min64 a b).val = min a.val b.val := by
  unfold min64
  split <;> omega

/-! ## Lemmas on the registry -/

theorem find_store_same (m : UserMap) (key : String) (u node : UserNode)
    (h : find m key = some u) : find (store m key node) key = some node := by
  induction m with
  | nil => simp [find] at h
  | cons hd tl ih =>
    obtain ⟨k, v⟩ := hd
    by_cases hk : k = key
    · simp [store, find, hk]
    · simp only [find, hk, if_false] at h
      simp [store, find, hk, ih h]

theorem find_store_other (m : UserMap) (key other : String) (node : UserNode)
    (h : other ≠ key) : find (store m key node) other = find m other := by
  induction m with
  | nil => simp [store]
  | cons hd tl ih =>
    obtain ⟨k, v⟩ := hd
    by_cases hk : k = key
    · subst hk
      have hne : ¬ k = other := fun e => h e.symm
      simp [store, find, hne]
    · by_cases ho : k = other
      · subst ho
        simp [store, find, h]
      · simp [store, find, hk, ho, ih]

theorem store_keys (m : UserMap) (key : String) (v : UserNode) :
    (store m key v).map Prod.fst = m.map Prod.fst := by
  induction m with
  | nil => rfl
  | cons hd tl ih =>
    obtain ⟨k, w⟩ := hd
    by_cases hk : k = key
    · simp [store, hk]
    · simp [store, hk, ih]

theorem find_mem (m : UserMap) (key : String) (u : UserNode) (h : find m key = some u) :
    (key, u) ∈ m := by
  induction m with
  | nil => simp [find] at h
  | cons hd tl ih =>
    obtain ⟨k, v⟩ := hd
    by_cases hk : k = key
    · simp only [find, hk, if_true, Option.some.injEq] at h
      simp [hk, h]
    · simp only [find, hk, if_false] at h
      exact List.mem_cons_of_mem _ (ih h)

theorem find_map_node (f : UserNode → UserNode) (m : UserMap) (key : String) :
    find (m.map (fun (obj : String × UserNode) => (obj.1, f obj.2))) key =
      (find m key).map f := by
  induction m with
  | nil => simp [find]
  | cons hd tl ih =>
    obtain ⟨k, v⟩ := hd
    by_cases hk : k = key
    · simp [find, hk]
    · simp [find, hk, ih]

theorem find_append_of_some (m l : UserMap) (key : String) (u : UserNode)
    (h : find m key = some u) : find (m ++ l) key = some u := by
  induction m with
  | nil => simp [find] at h
  | cons hd tl ih =>
    obtain ⟨k, v⟩ := hd
    by_cases hk : k = key
    · simpa [find, hk] using h
    · simp only [find, hk, if_false] at h
      simp [find, hk, ih h]

theorem find_append_of_none (m l : UserMap) (key : String)
    (h : find m key = none) : find (m ++ l) key = find l key := by
  induction m with
  | nil => simp
  | cons hd tl ih =>
    obtain ⟨k, v⟩ := hd
    by_cases hk : k = key
    · simp [find, hk] at h
    · simp only [find, hk, if_false] at h
      simp [find, hk, ih h]

theorem find_emplace_of_some (m : UserMap) (k key : String) (v u : UserNode)
    (h : find m key = some u) : find (emplace m k v) key = some u := by
  unfold emplace
  split
  · exact h
  · exact find_append_of_some m _ key u h

theorem find_emplace_same (m : UserMap) (key : String) (v : UserNode)
    (h : find m key = none) : find (emplace m key v) key = some v := by
  simp [emplace, h, find_append_of_none m _ key h, find]

theorem find_emplace_other (m : UserMap) (k key : String) (v : UserNode)
    (hk : k ≠ key) (h : find m key = none) : find (emplace m k v) key = none := by
  unfold emplace
  split
  · exact h
  · simp [find_append_of_none m _ key h, find, hk]

/-! ## The cases of `get_token` -/

/-- The bucket part of `get_token` by cases: the primary bucket pays when the wrapped
difference `c_bucket - n` is not negative, else the overflow bucket when the wrapped
difference `e_bucket - n` is not negative, else nothing is paid; each add undoes its
subtract exactly. -/
theorem get_token_node_eq (u : UserNode) (n : int64_t) :
    get_token_node u n =
      if 0 ≤ (u.c_bucket - n).val then
        (QOS_TOKEN_GREEN, { u with c_bucket := u.c_bucket - n, running := true })
      else if 0 ≤ (u.e_bucket - n).val then
        (QOS_TOKEN_YELLOW, { u with e_bucket := u.e_bucket - n, running := true })
      else
        (QOS_TOKEN_RED, { u with running := true }) := by
  unfold get_token_node
  by_cases h1 : 0 ≤ (u.c_bucket - n).val
  · simp [h1]
  · by_cases h2 : 0 ≤ (u.e_bucket - n).val
    · simp [h1, h2, sub_add_cancel64]
    · simp [h1, h2, sub_add_cancel64]

theorem get_token_unregistered_eq (s : QosKernal) (user_name product : String) (n : int64_t)
    (h : find s._user_map (make_key user_name product) = none) :
    get_token s user_name product n = (QOS_TOKEN_ERR, s) := by
  simp [get_token, h]

theorem get_token_green (s : QosKernal) (user_name product : String) (n : int64_t)
    (u : UserNode)
    (hfind : find s._user_map (make_key user_name product) = some u)
    (hn : 0 ≤ (u.c_bucket - n).val) :
    get_token s user_name product n =
      (QOS_TOKEN_GREEN,
        { s with _user_map := store s._user_map (make_key user_name product)
                   { u with c_bucket := u.c_bucket - n, running := true } }) := by
  simp [get_token, hfind, get_token_node_eq, hn]

theorem get_token_yellow (s : QosKernal) (user_name product : String) (n : int64_t)
    (u : UserNode)
    (hfind : find s._user_map (make_key user_name product) = some u)
    (hc : (u.c_bucket - n).val < 0) (he : 0 ≤ (u.e_bucket - n).val) :
    get_token s user_name product n =
      (QOS_TOKEN_YELLOW,
        { s with _user_map := store s._user_map (make_key user_name product)
                   { u with e_bucket := u.e_bucket - n, running := true } }) := by
  have hc1 : ¬ 0 ≤ (u.c_bucket - n).val := by omega
  simp [get_token, hfind, get_token_node_eq, hc1, he]

theorem get_token_exhausted (s : QosKernal) (user_name product : String) (n : int64_t)
    (u : UserNode) (hfind : find s._user_map (make_key user_name product) = some u)
    (hc : (u.c_bucket - n).val < 0) (he : (u.e_bucket - n).val < 0) :
    get_token s user_name product n =
      (if s._use_idle_flag = true ∧ 0 ≤ (s._idle_bucket - n).val then QOS_TOKEN_ORANGE
        else QOS_TOKEN_RED,
        { s with
          _user_map := store s._user_map (make_key user_name product) { u with running := true }
          _idle_bucket :=
            if s._use_idle_flag = true ∧ 0 ≤ (s._idle_bucket - n).val then s._idle_bucket - n
            else s._idle_bucket }) := by
  have hc1 : ¬ 0 ≤ (u.c_bucket - n).val := by omega
  have he1 : ¬ 0 ≤ (u.e_bucket - n).val := by omega
  by_cases hf : s._use_idle_flag = true
  · by_cases hi : 0 ≤ (s._idle_bucket - n).val
    · simp [get_token, hfind, get_token_node_eq, hc1, he1, hf, hi]
    · simp [get_token, hfind, get_token_node_eq, hc1, he1, hf, hi, sub_add_cancel64]
  · simp [get_token, hfind, get_token_node_eq, hc1, he1, hf]

theorem get_token_registered (s : QosKernal) (user_name product : String) (n : int64_t)
    (u : UserNode) (hfind : find s._user_map (make_key user_name product) = some u) :
    ∃ (c e i : int64_t),
      (get_token s user_name product n).2 =
        { s with
          _user_map := store s._user_map (make_key user_name product)
            { u with c_bucket := c, e_bucket := e, running := true }
          _idle_bucket := i } := by
  by_cases hc : 0 ≤ (u.c_bucket - n).val
  · exact ⟨u.c_bucket - n, u.e_bucket, s._idle_bucket, by
      rw [get_token_green s user_name product n u hfind hc]⟩
  · by_cases he : 0 ≤ (u.e_bucket - n).val
    · exact ⟨u.c_bucket, u.e_bucket - n, s._idle_bucket, by
        rw [get_token_yellow s user_name product n u hfind (by omega) he]⟩
    · exact ⟨u.c_bucket, u.e_bucket, _, by
        rw [get_token_exhausted s user_name product n u hfind (by omega) (by omega)]⟩

theorem get_token_node_quota (u : UserNode) (n : int64_t) :
    (get_token_node u n).2.qos_limit = u.qos_limit := by
  rw [get_token_node_eq]
  split
  · rfl
  · split <;> rfl

theorem get_token_node_names (u : UserNode) (n : int64_t) :
    (get_token_node u n).2.user_name = u.user_name ∧
    (get_token_node u n).2.product = u.product := by
  rw [get_token_node_eq]
  split
  · exact ⟨rfl, rfl⟩
  · split <;> exact ⟨rfl, rfl⟩

theorem get_token_frame (s : QosKernal) (user_name product : String) (n : int64_t) :
    (get_token s user_name product n).2._total_qos = s._total_qos ∧
    (get_token s user_name product n).2._idle_qos_limit = s._idle_qos_limit ∧
    (get_token s user_name product n).2._use_idle_flag = s._use_idle_flag ∧
    ((get_token s user_name product n).2._user_map = s._user_map ∨
      ∃ u, find s._user_map (make_key user_name product) = some u ∧
        (get_token s user_name product n).2._user_map =
          store s._user_map (make_key user_name product) (get_token_node u n).2) := by
  unfold get_token
  cases hfind : find s._user_map (make_key user_name product) with
  | none => simp
  | some u =>
    simp only
    split
    · split <;> exact ⟨rfl, rfl, rfl, Or.inr ⟨u, rfl, rfl⟩⟩
    · exact ⟨rfl, rfl, rfl, Or.inr ⟨u, rfl, rfl⟩⟩

theorem get_token_find_other (s : QosKernal) (user_name product : String) (n : int64_t)
    (key : String) (hk : make_key user_name product ≠ key) :
    find (get_token s user_name product n).2._user_map key = find s._user_map key := by
  rcases (get_token_frame s user_name product n).2.2.2 with h | ⟨u, _, h⟩
  · rw [h]
  · rw [h]
    exact find_store_other _ _ _ _ (fun e => hk e.symm)

/-- The idle pool after a call: lowered by the wrapped subtraction when the call is answered
`QOS_TOKEN_ORANGE`, and as before otherwise. -/
theorem get_token_idle_bucket (s : QosKernal) (user_name product : String) (n : int64_t) :
    ((get_token s user_name product n).1 = QOS_TOKEN_ORANGE ∧ 0 ≤ (s._idle_bucket - n).val ∧
      (get_token s user_name product n).2._idle_bucket = s._idle_bucket - n) ∨
    ((get_token s user_name product n).1 ≠ QOS_TOKEN_ORANGE ∧
      (get_token s user_name product n).2._idle_bucket = s._idle_bucket) := by
  cases hfind : find s._user_map (make_key user_name product) with
  | none =>
    rw [get_token_unregistered_eq s user_name product n hfind]
    exact Or.inr ⟨by simp, rfl⟩
  | some u =>
    by_cases hc : 0 ≤ (u.c_bucket - n).val
    · rw [get_token_green s user_name product n u hfind hc]
      exact Or.inr ⟨by simp, rfl⟩
    · by_cases he : 0 ≤ (u.e_bucket - n).val
      · rw [get_token_yellow s user_name product n u hfind (by omega) he]
        exact Or.inr ⟨by simp, rfl⟩
      · rw [get_token_exhausted s user_name product n u hfind (by omega) (by omega)]
        by_cases hi : s._use_idle_flag = true ∧ 0 ≤ (s._idle_bucket - n).val
        · exact Or.inl ⟨by simp [hi], hi.2, by simp [hi]⟩
        · exact Or.inr ⟨by simp [hi], by simp [hi]⟩

theorem list_sum_nonneg_of_pos (ns : List int64_t) (hpos : ∀ n ∈ ns, 0 < n.val) :
    0 ≤ (ns.map Subtype.val).sum := by
  induction ns with
  | nil => simp
  | cons n ns ih =>
    have h1 : 0 < n.val := hpos n (by simp)
    have h2 := ih (fun k hk => hpos k (by simp [hk]))
    simp only [List.map_cons, List.sum_cons]
    omega

theorem get_tokens_green (ns : List int64_t) :
    ∀ (s : QosKernal) (user_name product : String) (u : UserNode),
      find s._user_map (make_key user_name product) = some u →
      (∀ n ∈ ns, 0 < n.val) → (ns.map Subtype.val).sum ≤ u.c_bucket.val →
      (get_tokens s user_name product ns).1 = List.replicate ns.length QOS_TOKEN_GREEN ∧
      (∃ u1, find (get_tokens s user_name product ns).2._user_map
                (make_key user_name product) = some u1 ∧
          u1.c_bucket.val = u.c_bucket.val - (ns.map Subtype.val).sum ∧
          u1.e_bucket = u.e_bucket ∧ u1.qos_limit = u.qos_limit) ∧
      (get_tokens s user_name product ns).2._idle_bucket = s._idle_bucket := by
  induction ns with
  | nil =>
    intro s user_name product u hfind _ _
    exact ⟨rfl, ⟨u, hfind, by simp, rfl, rfl⟩, rfl⟩
  | cons n ns ih =>
    intro s user_name product u hfind hpos hsum
    have hn : 0 < n.val := hpos n (by simp)
    have hrest : ∀ k ∈ ns, 0 < k.val := fun k hk => hpos k (by simp [hk])
    have h0 := list_sum_nonneg_of_pos ns hrest
    simp only [List.map_cons, List.sum_cons] at hsum
    have hexact : (u.c_bucket - n).val = u.c_bucket.val - n.val :=
      sub_val_of_nonneg u.c_bucket n (by omega) hn
    have hstep := get_token_green s user_name product n u hfind (by omega)
    have hfind1 := find_store_same s._user_map (make_key user_name product) u
      { u with c_bucket := u.c_bucket - n, running := true } hfind
    obtain ⟨hres, ⟨u1, hu1, hc, he, hq⟩, hidle⟩ :=
      ih { s with _user_map := store s._user_map (make_key user_name product)
                    { u with c_bucket := u.c_bucket - n, running := true } }
        user_name product { u with c_bucket := u.c_bucket - n, running := true }
        hfind1 hrest (by simp only; omega)
    simp only at hc he hq hidle
    simp only [get_tokens, hstep, List.length_cons, List.replicate_succ, List.map_cons,
      List.sum_cons]
    exact ⟨by rw [hres], ⟨u1, hu1, by omega, he, hq⟩, hidle⟩

/-! ## Lemmas on `init` and `thread_run` -/

theorem init_users_find_some (l : List UserConf) :
    ∀ (m : UserMap) (key : String) (u : UserNode),
      find m key = some u → find (init_users l m).2 key = some u := by
  induction l with
  | nil => intro m key u h; simpa [init_users] using h
  | cons c rest ih =>
    intro m key u h
    obtain ⟨a, b, q⟩ := c
    cases a with
    | none => simpa [init_users] using h
    | some a =>
      cases b with
      | none => simpa [init_users] using h
      | some b =>
        cases q with
        | none => simpa [init_users] using h
        | some q =>
          simp only [init_users]
          exact ih _ key u (find_emplace_of_some m _ key _ u h)

theorem init_users_readable (l : List UserConf) :
    ∀ (m : UserMap),
      (∀ c ∈ l, c.user_name.isSome = true ∧ c.product.isSome = true ∧
        c.qos_limit.isSome = true) →
      (init_users l m).1 = true := by
  induction l with
  | nil => intro m _; rfl
  | cons c rest ih =>
    intro m h
    obtain ⟨a, b, q⟩ := c
    have hc := h ⟨a, b, q⟩ (by simp)
    have hrest := fun c hc => h c (List.mem_cons_of_mem _ hc)
    cases a with
    | none => simp at hc
    | some a =>
      cases b with
      | none => simp at hc
      | some b =>
        cases q with
        | none => simp at hc
        | some q =>
          simp only [init_users]
          exact ih _ hrest

theorem init_users_first_wins (pre : List UserConf) :
    ∀ (m : UserMap) (post : List UserConf) (user_name product : String) (qos_limit : int64_t),
      find m (make_key user_name product) = none →
      (∀ c ∈ pre, ∀ a b, c.user_name = some a → c.product = some b →
        make_key a b ≠ make_key user_name product) →
      (∀ c ∈ pre, c.user_name.isSome = true ∧ c.product.isSome = true ∧
        c.qos_limit.isSome = true) →
      find (init_users (pre ++ ⟨some user_name, some product, some qos_limit⟩ :: post) m).2
          (make_key user_name product) =
        some ⟨user_name, product, qos_limit, qos_limit, qos_limit, false⟩ := by
  induction pre with
  | nil =>
    intro m post user_name product qos_limit hfresh _ _
    simp only [List.nil_append, init_users]
    exact init_users_find_some post _ _ _ (find_emplace_same m _ _ hfresh)
  | cons c rest ih =>
    intro m post user_name product qos_limit hfresh hkeys hread
    obtain ⟨a, b, q⟩ := c
    have hc := hread ⟨a, b, q⟩ (by simp)
    cases a with
    | none => simp at hc
    | some a =>
      cases b with
      | none => simp at hc
      | some b =>
        cases q with
        | none => simp at hc
        | some q =>
          simp only [List.cons_append, init_users]
          refine ih _ post user_name product qos_limit ?_ ?_ ?_
          · exact find_emplace_other m _ _ _ (hkeys ⟨some a, some b, some q⟩ (by simp) a b rfl rfl)
              hfresh
          · exact fun c hc => hkeys c (List.mem_cons_of_mem _ hc)
          · exact fun c hc => hread c (List.mem_cons_of_mem _ hc)

theorem init_users_stops (pre : List UserConf) :
    ∀ (m : UserMap) (bad : UserConf) (post : List UserConf),
      (∀ c ∈ pre, c.user_name.isSome = true ∧ c.product.isSome = true ∧
        c.qos_limit.isSome = true) →
      Unreadable bad →
      init_users (pre ++ bad :: post) m = (false, (init_users pre m).2) := by
  induction pre with
  | nil =>
    intro m bad post _ hbad
    obtain ⟨a, b, q⟩ := bad
    cases a with
    | none => rfl
    | some a =>
      cases b with
      | none => rfl
      | some b =>
        cases q with
        | none => rfl
        | some q => simp [Unreadable] at hbad
  | cons c rest ih =>
    intro m bad post hread hbad
    obtain ⟨a, b, q⟩ := c
    have hc := hread ⟨a, b, q⟩ (by simp)
    cases a with
    | none => simp at hc
    | some a =>
      cases b with
      | none => simp at hc
      | some b =>
        cases q with
        | none => simp at hc
        | some q =>
          simp only [List.cons_append, init_users]
          exact ih _ bad post (fun c h => hread c (List.mem_cons_of_mem _ h)) hbad

theorem init_users_fails (l : List UserConf) :
    ∀ (m : UserMap), (∃ c ∈ l, Unreadable c) → (init_users l m).1 = false := by
  induction l with
  | nil => intro m h; simp at h
  | cons c rest ih =>
    intro m h
    obtain ⟨a, b, q⟩ := c
    cases a with
    | none => rfl
    | some a =>
      cases b with
      | none => rfl
      | some b =>
        cases q with
        | none => rfl
        | some q =>
          simp only [init_users]
          refine ih _ ?_
          obtain ⟨c, hc, hbad⟩ := h
          rcases List.mem_cons.mp hc with h1 | h1
          · subst h1
            simp [Unreadable] at hbad
          · exact ⟨c, h1, hbad⟩

theorem thread_run_frame (s : QosKernal) :
    (thread_run s).2._user_map = s._user_map ∧ (thread_run s).2._total_qos = s._total_qos ∧
    (thread_run s).2._idle_qos_limit = s._idle_qos_limit ∧
    (thread_run s).2._idle_bucket = s._idle_bucket ∧
    (thread_run s).2._use_idle_flag = s._use_idle_flag ∧
    (thread_run s).2._add_token_thread_running = s._add_token_thread_running ∧
    (thread_run s).2._idle_adjust_thread_running = s._idle_adjust_thread_running := by
  cases h1 : s._add_token_thread_running <;> cases h2 : s._use_idle_flag <;>
    cases h3 : s._idle_adjust_thread_running <;> cases h4 : s._add_token_thread <;>
    cases h5 : s._idle_adjust_thread <;>
    simp [thread_run, thread_run_idle_adjust, h1, h2, h3, h4, h5]

theorem thread_run_user_map (s : QosKernal) : (thread_run s).2._user_map = s._user_map :=
  (thread_run_frame s).1

/-- On a kernel none of whose thread members is joinable, `thread_run` returns
`QOS_E_SUCC`. -/
theorem thread_run_not_joinable (s : QosKernal)
    (h1 : s._add_token_thread = false) (h2 : s._idle_adjust_thread = false) :
    (thread_run s).1 = some QOS_E_SUCC := by
  cases h3 : s._add_token_thread_running <;> cases h4 : s._use_idle_flag <;>
    cases h5 : s._idle_adjust_thread_running <;>
    simp [thread_run, thread_run_idle_adjust, h1, h2, h3, h4, h5]

theorem init_user_map (s : QosKernal) (conf : Configure) :
    (init s conf).2._user_map = s._user_map ∨
    (init s conf).2._user_map = (init_users conf.users s._user_map).2 := by
  unfold init
  cases conf.total_qos with
  | none => exact Or.inl rfl
  | some t =>
    cases conf.use_idle with
    | none => exact Or.inl rfl
    | some f =>
      simp only
      split
      · exact Or.inr (thread_run_user_map _)
      · exact Or.inr rfl

theorem init_idle_fields (s : QosKernal) (conf : Configure) :
    (init s conf).2._idle_bucket = s._idle_bucket ∧
    (init s conf).2._idle_qos_limit = s._idle_qos_limit := by
  unfold init
  cases conf.total_qos with
  | none => exact ⟨rfl, rfl⟩
  | some t =>
    cases conf.use_idle with
    | none => exact ⟨rfl, rfl⟩
    | some f =>
      simp only
      split
      · exact ⟨(thread_run_frame _).2.2.2.1, (thread_run_frame _).2.2.1⟩
      · exact ⟨rfl, rfl⟩

theorem init_total_qos (s : QosKernal) (conf : Configure) :
    (init s conf).2._total_qos = s._total_qos ∨
    conf.total_qos = some (init s conf).2._total_qos := by
  unfold init
  cases ht : conf.total_qos with
  | none => exact Or.inl rfl
  | some t =>
    cases conf.use_idle with
    | none => exact Or.inr rfl
    | some f =>
      simp only
      split
      · exact Or.inr (by rw [(thread_run_frame _).2.1])
      · exact Or.inr rfl

/-! ## Lemmas on the two cycles -/

theorem add_token_user_map (s : QosKernal) :
    (add_token s)._user_map =
      s._user_map.map (fun (obj : String × UserNode) => (obj.1, add_token_node obj.2)) := by
  cases hf : s._use_idle_flag <;> simp [add_token, hf]

theorem add_token_frame (s : QosKernal) :
    (add_token s)._total_qos = s._total_qos ∧
    (add_token s)._idle_qos_limit = s._idle_qos_limit ∧
    (add_token s)._use_idle_flag = s._use_idle_flag := by
  cases hf : s._use_idle_flag <;> simp [add_token, hf]

theorem positive_part_val (a : int64_t) :
    (if a.val > 0 then a else (0 : int64_t)).val = max a.val 0 := by
  split
  · omega
  · rw [zero_val]; omega

theorem add_token_node_fields (u : UserNode) :
    (add_token_node u).c_bucket = u.qos_limit ∧ (add_token_node u).qos_limit = u.qos_limit ∧
    (add_token_node u).user_name = u.user_name ∧ (add_token_node u).product = u.product ∧
    (add_token_node u).running = u.running :=
  ⟨rfl, rfl, rfl, rfl, rfl⟩

/-- The overflow bucket after the Replenisher body, when the sum of the two positive parts
fits in an `int64_t`. -/
theorem add_token_node_e_bucket (u : UserNode)
    (h : max u.c_bucket.val 0 + max u.e_bucket.val 0 ≤ 9223372036854775807) :
    (add_token_node u).e_bucket.val =
      min u.qos_limit.val (max u.c_bucket.val 0 + max u.e_bucket.val 0) := by
  have hc := positive_part_val u.c_bucket
  have he := positive_part_val u.e_bucket
  have h1 := le_max_right u.c_bucket.val 0
  have h2 := le_max_right u.e_bucket.val 0
  simp only [add_token_node, min64_val]
  rw [add_val_exact _ _ (by rw [hc, he]; omega) (by rw [hc, he]; exact h), hc, he]

theorem wrap64_add (x : Int) (q : int64_t) : wrap64 x + q = wrap64 (x + q.val) := by
  apply Subtype.ext
  simp only [add_val, val_wrap64]
  omega

theorem sub_wrap64_val (a : int64_t) (x : Int) :
    (a - wrap64 x).val = (wrap64 (a.val - x)).val := by
  simp only [sub_val, val_wrap64]
  omega

theorem adjust_idle_loop_fst (m : UserMap) :
    ∀ (x : Int), (adjust_idle_loop m (wrap64 x)).1 = wrap64 (x + active_quota m) := by
  induction m with
  | nil => intro x; simp [adjust_idle_loop, active_quota]
  | cons hd tl ih =>
    intro x
    obtain ⟨k, v⟩ := hd
    by_cases hr : v.running = true
    · have hq : active_quota ((k, v) :: tl) = v.qos_limit.val + active_quota tl := by
        simp [active_quota, List.filter_cons, hr]
      simp only [adjust_idle_loop, hr, if_true, wrap64_add, ih, hq]
      congr 1
      omega
    · have hq : active_quota ((k, v) :: tl) = active_quota tl := by
        simp [active_quota, List.filter_cons, hr]
      simp only [adjust_idle_loop, hr, hq]
      exact ih x

theorem adjust_idle_loop_snd (m : UserMap) :
    ∀ acc : int64_t, (adjust_idle_loop m acc).2 =
      m.map (fun (obj : String × UserNode) => (obj.1, { obj.2 with running := false })) := by
  induction m with
  | nil => intro acc; simp [adjust_idle_loop]
  | cons hd tl ih =>
    intro acc
    obtain ⟨k, v⟩ := hd
    simp [adjust_idle_loop, ih]

theorem adjust_idle_token_user_map (s : QosKernal) :
    (adjust_idle_token s)._user_map =
      s._user_map.map (fun (obj : String × UserNode) =>
        (obj.1, { obj.2 with running := false })) := by
  simp only [adjust_idle_token, adjust_idle_loop_snd]

/-- The ceiling stored by one Idle Estimator cycle: the positive part of the wrapped
difference between the budget and the in-use sum. -/
theorem adjust_idle_token_limit (s : QosKernal) :
    (adjust_idle_token s)._idle_qos_limit.val =
      max (wrap64 (s._total_qos.val - active_quota s._user_map)).val 0 := by
  have h0 : (0 : int64_t) = wrap64 0 := rfl
  simp only [adjust_idle_token, max64_val]
  rw [h0, adjust_idle_loop_fst, sub_wrap64_val, zero_add]

theorem adjust_idle_token_limit_exact (s : QosKernal)
    (h1 : -9223372036854775808 ≤ s._total_qos.val - active_quota s._user_map)
    (h2 : s._total_qos.val - active_quota s._user_map ≤ 9223372036854775807) :
    (adjust_idle_token s)._idle_qos_limit.val =
      max (s._total_qos.val - active_quota s._user_map) 0 := by
  rw [adjust_idle_token_limit, wrap64_val_exact _ h1 h2]

theorem active_quota_append (m1 m2 : UserMap) :
    active_quota (m1 ++ m2) = active_quota m1 + active_quota m2 := by
  simp [active_quota, List.filter_append, List.map_append, List.sum_append]

theorem active_quota_cons (k : String) (u : UserNode) (m : UserMap) :
    active_quota ((k, u) :: m) =
      (if u.running = true then u.qos_limit.val else 0) + active_quota m := by
  by_cases hr : u.running = true
  · simp [active_quota, List.filter_cons, hr]
  · simp [active_quota, List.filter_cons, hr]

theorem active_quota_flag (pre post : UserMap) (k : String) (u : UserNode)
    (hrun : u.running = false) :
    active_quota (pre ++ (k, { u with running := true }) :: post) =
      active_quota (pre ++ (k, u) :: post) + u.qos_limit.val := by
  simp only [active_quota_append, active_quota_cons, hrun]
  simp
  omega

/-! ## Properties of every entry of the registry -/

theorem forall_store (P : String → UserNode → Prop) (m : UserMap) (key : String)
    (u v : UserNode) (hm : ∀ obj ∈ m, P obj.1 obj.2) (hfind : find m key = some u)
    (hv : P key u → P key v) : ∀ obj ∈ store m key v, P obj.1 obj.2 := by
  induction m with
  | nil => simp [find] at hfind
  | cons hd tl ih =>
    obtain ⟨k, w⟩ := hd
    have htl : ∀ obj ∈ tl, P obj.1 obj.2 := fun obj h => hm obj (List.mem_cons_of_mem _ h)
    intro obj hobj
    by_cases hk : k = key
    · simp only [find, hk, if_true, Option.some.injEq] at hfind
      simp only [store, hk, if_true, List.mem_cons] at hobj
      rcases hobj with h | h
      · rw [h]
        refine hv ?_
        have := hm (k, w) (by simp)
        rw [hk, hfind] at this
        exact this
      · exact htl obj h
    · simp only [find, hk, if_false] at hfind
      simp only [store, hk, if_false, List.mem_cons] at hobj
      rcases hobj with h | h
      · rw [h]; exact hm (k, w) (by simp)
      · exact ih htl hfind obj h

theorem forall_map (P : String → UserNode → Prop) (f : UserNode → UserNode)
    (hf : ∀ k u, P k u → P k (f u)) (m : UserMap) (hm : ∀ obj ∈ m, P obj.1 obj.2) :
    ∀ obj ∈ m.map (fun (obj : String × UserNode) => (obj.1, f obj.2)), P obj.1 obj.2 := by
  intro obj hobj
  obtain ⟨src, hsrc, rfl⟩ := List.mem_map.mp hobj
  exact hf _ _ (hm src hsrc)

theorem forall_emplace (P : String → UserNode → Prop) (m : UserMap) (key : String)
    (v : UserNode) (hm : ∀ obj ∈ m, P obj.1 obj.2) (hv : P key v) :
    ∀ obj ∈ emplace m key v, P obj.1 obj.2 := by
  unfold emplace
  split
  · exact hm
  · intro obj hobj
    rcases List.mem_append.mp hobj with h | h
    · exact hm obj h
    · simp only [List.mem_singleton] at h
      rw [h]; exact hv

theorem forall_init_users (P : String → UserNode → Prop) (l : List UserConf) :
    ∀ (m : UserMap), (∀ obj ∈ m, P obj.1 obj.2) →
      (∀ c ∈ l, ∀ a b q, c.user_name = some a → c.product = some b → c.qos_limit = some q →
        P (make_key a b) ⟨a, b, q, q, q, false⟩) →
      ∀ obj ∈ (init_users l m).2, P obj.1 obj.2 := by
  induction l with
  | nil => intro m hm _; simpa [init_users] using hm
  | cons c rest ih =>
    intro m hm hc
    obtain ⟨a, b, q⟩ := c
    have hrest := fun c h => hc c (List.mem_cons_of_mem _ h)
    cases a with
    | none => simpa [init_users] using hm
    | some a =>
      cases b with
      | none => simpa [init_users] using hm
      | some b =>
        cases q with
        | none => simpa [init_users] using hm
        | some q =>
          simp only [init_users]
          exact ih _ (forall_emplace P m _ _ hm
            (hc ⟨some a, some b, some q⟩ (by simp) a b q rfl rfl rfl)) hrest

theorem forall_init (P : String → UserNode → Prop) (conf : Configure)
    (hc : ∀ c ∈ conf.users, ∀ a b q, c.user_name = some a → c.product = some b →
      c.qos_limit = some q → P (make_key a b) ⟨a, b, q, q, q, false⟩) :
    ∀ obj ∈ (init QosKernal.new conf).2._user_map, P obj.1 obj.2 := by
  have hnil : ∀ obj ∈ QosKernal.new._user_map, P obj.1 obj.2 := fun obj h => by
    simp [QosKernal.new] at h
  rcases init_user_map QosKernal.new conf with h | h
  · rw [h]; exact hnil
  · rw [h]; exact forall_init_users P conf.users _ hnil hc

theorem forall_get_token (P : String → UserNode → Prop) (s : QosKernal)
    (user_name product : String) (n : int64_t)
    (hstep : ∀ k u, P k u → P k (get_token_node u n).2)
    (hm : ∀ obj ∈ s._user_map, P obj.1 obj.2) :
    ∀ obj ∈ (get_token s user_name product n).2._user_map, P obj.1 obj.2 := by
  rcases (get_token_frame s user_name product n).2.2.2 with h | ⟨u, hu, h⟩
  · rw [h]; exact hm
  · rw [h]
    exact forall_store P _ _ u _ hm hu (hstep _ u)

theorem total_quota_store (m : UserMap) (key : String) (u v : UserNode)
    (hfind : find m key = some u) (hq : v.qos_limit = u.qos_limit) :
    total_quota (store m key v) = total_quota m := by
  induction m with
  | nil => rfl
  | cons hd tl ih =>
    obtain ⟨k, w⟩ := hd
    by_cases hk : k = key
    · simp only [find, hk, if_true, Option.some.injEq] at hfind
      simp [store, hk, total_quota, hq, hfind]
    · simp only [find, hk, if_false] at hfind
      have := ih hfind
      simp only [total_quota] at this
      simp [store, hk, total_quota, this]

theorem total_quota_map (f : UserNode → UserNode) (hf : ∀ u, (f u).qos_limit = u.qos_limit)
    (m : UserMap) :
    total_quota (m.map (fun (obj : String × UserNode) => (obj.1, f obj.2))) = total_quota m := by
  induction m with
  | nil => rfl
  | cons hd tl ih =>
    have h1 : ∀ (a : String × UserNode) (l : UserMap),
        total_quota (a :: l) = a.2.qos_limit.val + total_quota l := fun a l => by
      simp [total_quota]
    rw [List.map_cons, h1, h1, ih]
    simp only [hf]

theorem get_token_total_quota (s : QosKernal) (user_name product : String) (n : int64_t) :
    total_quota (get_token s user_name product n).2._user_map = total_quota s._user_map := by
  rcases (get_token_frame s user_name product n).2.2.2 with h | ⟨u, hu, h⟩
  · rw [h]
  · rw [h]
    exact total_quota_store _ _ u _ hu (get_token_node_quota u n)

theorem active_quota_bounds (m : UserMap) (hm : QuotasNonneg m) :
    0 ≤ active_quota m ∧ active_quota m ≤ total_quota m := by
  induction m with
  | nil => simp [active_quota, total_quota]
  | cons hd tl ih =>
    obtain ⟨k, u⟩ := hd
    have htl : QuotasNonneg tl := fun obj h => hm obj (List.mem_cons_of_mem _ h)
    have hhd : 0 ≤ u.qos_limit.val := hm (k, u) (by simp)
    have h := ih htl
    have ht : total_quota ((k, u) :: tl) = u.qos_limit.val + total_quota tl := by
      simp [total_quota]
    rw [active_quota_cons, ht]
    split <;> omega

/-! ## Keys -/

theorem tab_split (a : List Char) :
    ∀ (c b d : List Char), '\t' ∉ a → '\t' ∉ c → a ++ '\t' :: b = c ++ '\t' :: d →
      a = c ∧ b = d := by
  induction a with
  | nil =>
    intro c b d _ hc h
    cases c with
    | nil => simpa using h
    | cons y ys =>
      simp only [List.nil_append, List.cons_append, List.cons.injEq] at h
      exact absurd (by simp [← h.1]) hc
  | cons x xs ih =>
    intro c b d ha hc h
    cases c with
    | nil =>
      simp only [List.nil_append, List.cons_append, List.cons.injEq] at h
      exact absurd (by simp [h.1]) ha
    | cons y ys =>
      simp only [List.cons_append, List.cons.injEq] at h
      have hxs : '\t' ∉ xs := fun hm => ha (List.mem_cons_of_mem _ hm)
      have hys : '\t' ∉ ys := fun hm => hc (List.mem_cons_of_mem _ hm)
      obtain ⟨h1, h2⟩ := ih ys b d hxs hys h.2
      exact ⟨by rw [h.1, h1], h2⟩

theorem make_key_data (user_name product : String) :
    (make_key user_name product).data = user_name.data ++ '\t' :: product.data := by
  simp [make_key, String.data_append]

theorem make_key_inj (name1 class1 name2 class2 : String)
    (h1 : '\t' ∉ name1.data) (h2 : '\t' ∉ name2.data)
    (h : make_key name1 class1 = make_key name2 class2) :
    name1 = name2 ∧ class1 = class2 := by
  have hd := congrArg String.data h
  rw [make_key_data, make_key_data] at hd
  obtain ⟨ha, hb⟩ := tab_split _ _ _ _ h1 h2 hd
  exact ⟨String.ext ha, String.ext hb⟩

theorem reachable_keys (conf : Configure) (s : QosKernal) (h : Reachable conf s) :
    KeysWellFormed s._user_map := by
  induction h with
  | init =>
    exact forall_init (fun k u => k = make_key u.user_name u.product) conf
      (fun _ _ _ _ _ _ _ _ => rfl)
  | get_token s user_name product n _ ih =>
    refine forall_get_token (fun k u => k = make_key u.user_name u.product) s user_name
      product n (fun k u hk => ?_) ih
    simp only [(get_token_node_names u n).1, (get_token_node_names u n).2]
    exact hk
  | add_token s _ ih =>
    rw [add_token_user_map]
    exact forall_map (fun k u => k = make_key u.user_name u.product) add_token_node
      (fun k u hk => hk) _ ih
  | adjust_idle_token s _ ih =>
    rw [adjust_idle_token_user_map]
    exact forall_map (fun k u => k = make_key u.user_name u.product)
      (fun u => { u with running := false }) (fun k u hk => hk) _ ih

/-! ## Invariants of a run -/

/-- In every state of a run, whatever the token counts, the idle pool and the idle ceiling
are not negative. -/
theorem reachable_idle_nonneg (conf : Configure) (s : QosKernal) (h : Reachable conf s) :
    0 ≤ s._idle_bucket.val ∧ 0 ≤ s._idle_qos_limit.val := by
  induction h with
  | init =>
    rw [(init_idle_fields QosKernal.new conf).1, (init_idle_fields QosKernal.new conf).2]
    exact ⟨le_refl _, le_refl _⟩
  | get_token s user_name product n _ ih =>
    rw [(get_token_frame s user_name product n).2.1]
    refine ⟨?_, ih.2⟩
    rcases get_token_idle_bucket s user_name product n with ⟨_, hle, he⟩ | ⟨_, he⟩
    · rw [he]; exact hle
    · rw [he]; exact ih.1
  | add_token s _ ih =>
    rw [(add_token_frame s).2.1]
    refine ⟨?_, ih.2⟩
    cases hf : s._use_idle_flag
    · simpa [add_token, hf] using ih.1
    · simpa [add_token, hf] using ih.2
  | adjust_idle_token s _ ih =>
    refine ⟨ih.1, ?_⟩
    rw [adjust_idle_token_limit]
    exact le_max_right _ _

/-- The invariant behind the bounds of the idle ceiling: it is not negative, and when the
configuration supplies no negative value and the registered quotas sum to at most the budget
plus `2^63`, neither the budget nor a quota is negative, the budget and the sum of the quotas
are those left by `init`, and the ceiling is at most the budget. -/
theorem reachable_invariant (conf : Configure) (s : QosKernal) (h : Reachable conf s) :
    0 ≤ s._idle_qos_limit.val ∧
    (ConfNonneg conf →
      total_quota (init QosKernal.new conf).2._user_map ≤
        (init QosKernal.new conf).2._total_qos.val + 9223372036854775808 →
      0 ≤ s._total_qos.val ∧ QuotasNonneg s._user_map ∧
      total_quota s._user_map = total_quota (init QosKernal.new conf).2._user_map ∧
      s._total_qos = (init QosKernal.new conf).2._total_qos ∧
      s._idle_qos_limit.val ≤ s._total_qos.val) := by
  refine ⟨(reachable_idle_nonneg conf s h).2, fun hc hsum => ?_⟩
  induction h with
  | init =>
    have ht : 0 ≤ (init QosKernal.new conf).2._total_qos.val := by
      rcases init_total_qos QosKernal.new conf with h | h
      · rw [h]; exact le_refl _
      · exact hc.1 _ h
    refine ⟨ht, ?_, rfl, rfl, ?_⟩
    · exact forall_init (fun _ u => 0 ≤ u.qos_limit.val) conf
        (fun c hmem _ _ q _ _ hq => hc.2 c hmem q hq)
    · rw [(init_idle_fields QosKernal.new conf).2]
      exact ht
  | get_token s user_name product n _ ih =>
    obtain ⟨htot, hlim, -, -⟩ := get_token_frame s user_name product n
    rw [htot, hlim, get_token_total_quota]
    refine ⟨ih.1, ?_, ih.2.2.1, ih.2.2.2.1, ih.2.2.2.2⟩
    exact forall_get_token (fun _ u => 0 ≤ u.qos_limit.val) s user_name product n
      (fun _ u hu => by simp only [get_token_node_quota]; exact hu) ih.2.1
  | add_token s _ ih =>
    rw [(add_token_frame s).1, (add_token_frame s).2.1, add_token_user_map,
      total_quota_map add_token_node (fun _ => rfl)]
    exact ⟨ih.1, forall_map (fun _ u => 0 ≤ u.qos_limit.val) add_token_node
      (fun _ _ hu => hu) _ ih.2.1, ih.2.2.1, ih.2.2.2.1, ih.2.2.2.2⟩
  | adjust_idle_token s _ ih =>
    have hb := active_quota_bounds s._user_map ih.2.1
    have hq := ih.2.2.1
    have ht := ih.1
    have hT := s._total_qos.property
    have hinit := ih.2.2.2.1
    rw [← hinit, ← hq] at hsum
    have hlim := adjust_idle_token_limit_exact s (by omega) (by omega)
    rw [adjust_idle_token_user_map,
      total_quota_map (fun u => { u with running := false }) (fun _ => rfl)]
    refine ⟨ht, forall_map (fun _ u => 0 ≤ u.qos_limit.val)
      (fun u => { u with running := false }) (fun _ _ hu => hu) _ ih.2.1, hq, hinit, ?_⟩
    have h1 : (adjust_idle_token s)._total_qos = s._total_qos := rfl
    rw [hlim, h1]
    exact max_le (by omega) ht

theorem get_token_node_in_range (u : UserNode) (n : int64_t) (hn : 0 < n.val)
    (hu : InRange u) : InRange (get_token_node u n).2 := by
  obtain ⟨h1, h2, h3, h4⟩ := hu
  have hc := sub_val_of_nonneg u.c_bucket n h1 hn
  have he := sub_val_of_nonneg u.e_bucket n h3 hn
  rw [get_token_node_eq]
  unfold InRange
  split
  · simp only; omega
  · split
    · simp only; omega
    · simp only; omega

theorem add_token_node_in_range (u : UserNode) (hu : InRange u)
    (hq : u.qos_limit.val ≤ 4611686018427387903) : InRange (add_token_node u) := by
  obtain ⟨h1, h2, h3, h4⟩ := hu
  have hc : max u.c_bucket.val 0 = u.c_bucket.val := max_eq_left h1
  have he : max u.e_bucket.val 0 = u.e_bucket.val := max_eq_left h3
  have hv := add_token_node_e_bucket u (by rw [hc, he]; omega)
  rw [hc, he] at hv
  have hf := add_token_node_fields u
  unfold InRange
  rw [hv, hf.1, hf.2.1]
  exact ⟨by omega, le_refl _, le_min (by omega) (by omega), min_le_left _ _⟩

/-- The invariant behind the range of the buckets: when every quota the configuration supplies
is between 0 and `2^62 - 1`, every node keeps both buckets between 0 and its quota. -/
theorem reachable_positive_invariant (conf : Configure)
    (hq : ∀ c ∈ conf.users, ∀ q, c.qos_limit = some q →
      0 ≤ q.val ∧ q.val ≤ 4611686018427387903)
    (s : QosKernal) (h : ReachablePositive conf s) :
    (∀ obj ∈ s._user_map, InRange obj.2 ∧ obj.2.qos_limit.val ≤ 4611686018427387903) ∧
    0 ≤ s._idle_bucket.val ∧ 0 ≤ s._idle_qos_limit.val := by
  induction h with
  | init =>
    refine ⟨forall_init (fun _ u => InRange u ∧ u.qos_limit.val ≤ 4611686018427387903) conf
      (fun c hc a b q _ _ hl => ?_), ?_, ?_⟩
    · have := hq c hc q hl
      exact ⟨⟨this.1, le_refl _, this.1, le_refl _⟩, this.2⟩
    · rw [(init_idle_fields QosKernal.new conf).1]; exact le_refl _
    · rw [(init_idle_fields QosKernal.new conf).2]; exact le_refl _
  | get_token s user_name product n hn _ ih =>
    refine ⟨forall_get_token (fun _ u => InRange u ∧ u.qos_limit.val ≤ 4611686018427387903)
      s user_name product n
      (fun _ u hu => ⟨get_token_node_in_range u n hn hu.1, by
        rw [get_token_node_quota]; exact hu.2⟩) ih.1, ?_, ?_⟩
    · rcases get_token_idle_bucket s user_name product n with ⟨_, hle, he⟩ | ⟨_, he⟩
      · rw [he]; exact hle
      · rw [he]; exact ih.2.1
    · rw [(get_token_frame s user_name product n).2.1]
      exact ih.2.2
  | add_token s _ ih =>
    refine ⟨?_, ?_, ?_⟩
    · rw [add_token_user_map]
      exact forall_map (fun _ u => InRange u ∧ u.qos_limit.val ≤ 4611686018427387903)
        add_token_node (fun _ u hu => ⟨add_token_node_in_range u hu.1 hu.2, hu.2⟩) _ ih.1
    · cases hf : s._use_idle_flag
      · simpa [add_token, hf] using ih.2.1
      · simpa [add_token, hf] using ih.2.2
    · rw [(add_token_frame s).2.1]; exact ih.2.2
  | adjust_idle_token s _ ih =>
    refine ⟨?_, ih.2.1, ?_⟩
    · rw [adjust_idle_token_user_map]
      exact forall_map (fun _ u => InRange u ∧ u.qos_limit.val ≤ 4611686018427387903)
        (fun u => { u with running := false }) (fun _ u hu => hu) _ ih.1
    · rw [adjust_idle_token_limit]
      exact le_max_right _ _

/-! ## The tokens granted between two Replenisher cycles -/

theorem idle_granted_bound (calls : List (String × String × int64_t)) :
    ∀ (s : QosKernal), (∀ call ∈ calls, 0 < call.2.2.val) → 0 ≤ s._idle_bucket.val →
      idle_granted_sum calls (get_token_calls s calls).1 ≤ s._idle_bucket.val := by
  induction calls with
  | nil => intro s _ h; simpa [idle_granted_sum, get_token_calls] using h
  | cons call calls ih =>
    intro s hpos hidle
    have hn : 0 < call.2.2.val := hpos call (by simp)
    have hrest : ∀ c ∈ calls, 0 < c.2.2.val := fun c hc => hpos c (List.mem_cons_of_mem _ hc)
    have hexact := sub_val_of_nonneg s._idle_bucket call.2.2 hidle hn
    simp only [get_token_calls, idle_granted_sum]
    rcases get_token_idle_bucket s call.1 call.2.1 call.2.2 with ⟨ht, hle, he⟩ | ⟨ht, he⟩
    · have h := ih (get_token s call.1 call.2.1 call.2.2).2 hrest (by rw [he]; exact hle)
      rw [he, hexact] at h
      simp only [ht, if_true]
      omega
    · have h := ih (get_token s call.1 call.2.1 call.2.2).2 hrest (by rw [he]; exact hidle)
      rw [he] at h
      simp only [ht, if_false]
      omega

theorem granted_bound (key : String) (calls : List (String × String × int64_t)) :
    ∀ (s : QosKernal) (u : UserNode), find s._user_map key = some u →
      0 ≤ u.c_bucket.val → 0 ≤ u.e_bucket.val → (∀ call ∈ calls, 0 < call.2.2.val) →
      granted_sum key calls (get_token_calls s calls).1 ≤ u.c_bucket.val + u.e_bucket.val := by
  induction calls with
  | nil =>
    intro s u _ hc he _
    simp only [granted_sum, get_token_calls]
    omega
  | cons call calls ih =>
    intro s u hfind hc he hpos
    have hn : 0 < call.2.2.val := hpos call (by simp)
    have hrest : ∀ c ∈ calls, 0 < c.2.2.val := fun c hc => hpos c (List.mem_cons_of_mem _ hc)
    have hcx := sub_val_of_nonneg u.c_bucket call.2.2 hc hn
    have hex := sub_val_of_nonneg u.e_bucket call.2.2 he hn
    simp only [get_token_calls, granted_sum]
    by_cases hk : make_key call.1 call.2.1 = key
    · subst hk
      by_cases h1 : 0 ≤ (u.c_bucket - call.2.2).val
      · have hstep := get_token_green s call.1 call.2.1 call.2.2 u hfind h1
        have h := ih (get_token s call.1 call.2.1 call.2.2).2
          { u with c_bucket := u.c_bucket - call.2.2, running := true }
          (by rw [hstep]; exact find_store_same _ _ u _ hfind) h1 he hrest
        rw [hstep] at h ⊢
        simp only [true_and, true_or, if_true, hcx] at h ⊢
        omega
      · by_cases h2 : 0 ≤ (u.e_bucket - call.2.2).val
        · have hstep := get_token_yellow s call.1 call.2.1 call.2.2 u hfind (by omega) h2
          have h := ih (get_token s call.1 call.2.1 call.2.2).2
            { u with e_bucket := u.e_bucket - call.2.2, running := true }
            (by rw [hstep]; exact find_store_same _ _ u _ hfind) hc h2 hrest
          rw [hstep] at h ⊢
          simp only [true_and, or_true, if_true, hex] at h ⊢
          omega
        · have hstep := get_token_exhausted s call.1 call.2.1 call.2.2 u hfind (by omega)
            (by omega)
          have h := ih (get_token s call.1 call.2.1 call.2.2).2 { u with running := true }
            (by rw [hstep]; exact find_store_same _ _ u _ hfind) hc he hrest
          simp only at h
          have htier : ¬ ((get_token s call.1 call.2.1 call.2.2).1 = QOS_TOKEN_GREEN ∨
              (get_token s call.1 call.2.1 call.2.2).1 = QOS_TOKEN_YELLOW) := by
            rw [hstep]
            simp only
            split <;> simp
          simp only [htier, and_false, if_false]
          omega
    · have h := ih (get_token s call.1 call.2.1 call.2.2).2 u
        (by rw [get_token_find_other s call.1 call.2.1 call.2.2 key hk]; exact hfind) hc he hrest
      simp only [hk, false_and, if_false]
      omega

/-! ## The claims -/

/-- C1: for an unregistered `(user_name, product)` pair `get_token` returns `QOS_TOKEN_ERR`
and the kernel afterwards is the kernel before, whatever the token count: no bucket, no flag
and not the idle pool changes. -/
theorem get_token_unregistered (s : QosKernal) (user_name product : String)
    (token_num : int64_t)
    (h : find s._user_map (make_key user_name product) = none) :
    get_token s user_name product token_num = (QOS_TOKEN_ERR, s) := by
  simp [get_token, h]

theorem get_token_unregistered_witness :
    find kernel_A._user_map (make_key "B" "x") = none ∧
      get_token kernel_A "B" "x" 4 = (QOS_TOKEN_ERR, kernel_A) :=
  ⟨by decide, get_token_unregistered kernel_A "B" "x" 4 (by decide)⟩

/-- C2: when the primary bucket of a tenant holds its quota `Q`, successive `get_token` calls
of that tenant with positive sizes of sum at most `Q` all return `QOS_TOKEN_GREEN`; the
primary bucket ends at `Q` minus the sum, the overflow bucket and the idle pool are as
before. -/
theorem get_tokens_within_quota (s : QosKernal) (user_name product : String) (u : UserNode)
    (ns : List int64_t)
    (hfind : find s._user_map (make_key user_name product) = some u)
    (hfull : u.c_bucket = u.qos_limit)
    (hpos : ∀ n ∈ ns, 0 < n.val) (hsum : (ns.map Subtype.val).sum ≤ u.qos_limit.val) :
    (get_tokens s user_name product ns).1 = List.replicate ns.length QOS_TOKEN_GREEN ∧
    (∃ u1, find (get_tokens s user_name product ns).2._user_map
              (make_key user_name product) = some u1 ∧
        u1.c_bucket.val = u.qos_limit.val - (ns.map Subtype.val).sum ∧
        u1.e_bucket = u.e_bucket ∧ u1.qos_limit = u.qos_limit) ∧
    (get_tokens s user_name product ns).2._idle_bucket = s._idle_bucket := by
  have h := get_tokens_green ns s user_name product u hfind hpos (by rw [hfull]; exact hsum)
  rw [hfull] at h
  exact h

theorem get_tokens_within_quota_witness :
    (get_tokens kernel_A "A" "x" [4, 6]).1 = List.replicate 2 QOS_TOKEN_GREEN ∧
    (∃ u1, find (get_tokens kernel_A "A" "x" [4, 6]).2._user_map (make_key "A" "x") = some u1 ∧
        u1.c_bucket.val = 10 - 10 ∧ u1.e_bucket = 10 ∧ u1.qos_limit = 10) ∧
    (get_tokens kernel_A "A" "x" [4, 6]).2._idle_bucket = kernel_A._idle_bucket :=
  get_tokens_within_quota kernel_A "A" "x" node_A [4, 6] (by decide) (by decide) (by decide)
    (by decide)

/-- C3, as stated, fails. For the tenant of quota `-5` right after `init`, the call of size
`n = 2^63 - 1` has `c_bucket < n` and `e_bucket < n`, yet the subtraction `-5 - n` wraps to
`2^63 - 4` and the call is answered `QOS_TOKEN_GREEN`, neither `QOS_TOKEN_RED` nor
`QOS_TOKEN_ORANGE`. And once a call of size `-5` has brought the primary bucket of that tenant
to 0, the call of size `n` finds `0 - n` negative without a wrap, but `e_bucket - n` wraps and
the answer is `QOS_TOKEN_YELLOW` although `e_bucket < n`. -/
theorem get_token_wraps_to_green :
    find (init QosKernal.new conf_negative_quota).2._user_map (make_key "A" "x") =
      some ⟨"A", "x", -5, -5, -5, false⟩ ∧
    (0 : Int) < (9223372036854775807 : int64_t).val ∧
    (-5 : int64_t).val < (9223372036854775807 : int64_t).val ∧
    (get_token (init QosKernal.new conf_negative_quota).2 "A" "x" 9223372036854775807).1 =
      QOS_TOKEN_GREEN ∧
    find (get_token (init QosKernal.new conf_negative_quota).2 "A" "x"
        9223372036854775807).2._user_map (make_key "A" "x") =
      some ⟨"A", "x", -5, 9223372036854775804, -5, true⟩ ∧
    find (get_token (init QosKernal.new conf_negative_quota).2 "A" "x" (-5)).2._user_map
      (make_key "A" "x") = some ⟨"A", "x", -5, 0, -5, true⟩ ∧
    (0 : int64_t).val < (9223372036854775807 : int64_t).val ∧
    (get_token (get_token (init QosKernal.new conf_negative_quota).2 "A" "x" (-5)).2 "A" "x"
      9223372036854775807).1 = QOS_TOKEN_YELLOW := by
  refine ⟨by decide, by decide, by decide, by decide, by decide, by decide, by decide,
    by decide⟩

/-- C3, amended: in a state of a run, for a registered tenant and a positive `n` with
`c_bucket < n`, when neither `c_bucket - n` nor `e_bucket - n` falls below `-2^63` (no
subtraction on the buckets wraps), `get_token` returns `QOS_TOKEN_YELLOW` exactly when
`n ≤ e_bucket`; on `QOS_TOKEN_YELLOW` the overflow bucket has lost exactly `n` and the primary
bucket is as before; when `e_bucket < n` the result is `QOS_TOKEN_ORANGE` if the idle pool is
enabled and holds `n`, and `QOS_TOKEN_RED` otherwise. -/
theorem get_token_primary_exhausted (conf : Configure) (s : QosKernal)
    (user_name product : String) (n : int64_t) (u : UserNode)
    (hreach : Reachable conf s)
    (hfind : find s._user_map (make_key user_name product) = some u)
    (hn : 0 < n.val) (hc : u.c_bucket.val < n.val)
    (hcw : -9223372036854775808 ≤ u.c_bucket.val - n.val)
    (hew : -9223372036854775808 ≤ u.e_bucket.val - n.val) :
    ((get_token s user_name product n).1 = QOS_TOKEN_YELLOW ↔ n.val ≤ u.e_bucket.val) ∧
    ((get_token s user_name product n).1 = QOS_TOKEN_YELLOW →
      ∃ u1, find (get_token s user_name product n).2._user_map (make_key user_name product) =
          some u1 ∧
        u1.e_bucket.val = u.e_bucket.val - n.val ∧ u1.c_bucket = u.c_bucket ∧
        u1.qos_limit = u.qos_limit ∧ u1.running = true) ∧
    (u.e_bucket.val < n.val →
      (get_token s user_name product n).1 =
        if s._use_idle_flag = true ∧ n.val ≤ s._idle_bucket.val then QOS_TOKEN_ORANGE
        else QOS_TOKEN_RED) := by
  have hcp := u.c_bucket.property
  have hep := u.e_bucket.property
  have hnp := n.property
  have hcx := sub_val_exact u.c_bucket n hcw (by omega)
  have hex := sub_val_exact u.e_bucket n hew (by omega)
  have hix := sub_val_of_nonneg s._idle_bucket n (reachable_idle_nonneg conf s hreach).1 hn
  by_cases he : n.val ≤ u.e_bucket.val
  · have hy := get_token_yellow s user_name product n u hfind (by omega) (by omega)
    refine ⟨⟨fun _ => he, fun _ => by rw [hy]⟩, fun _ => ?_, fun hlt => absurd he (by omega)⟩
    rw [hy]
    exact ⟨_, find_store_same _ _ u _ hfind, hex, rfl, rfl, rfl⟩
  · have hx := get_token_exhausted s user_name product n u hfind (by omega) (by omega)
    have hne : (get_token s user_name product n).1 ≠ QOS_TOKEN_YELLOW := by
      rw [hx]
      simp only
      split <;> simp
    refine ⟨⟨fun h => absurd h hne, fun h => absurd h he⟩, fun h => absurd h hne, fun _ => ?_⟩
    rw [hx]
    simp only [hix]
    by_cases hf : s._use_idle_flag = true
    · simp only [hf, true_and]
      by_cases hle : n.val ≤ s._idle_bucket.val
      · rw [if_pos (by omega), if_pos hle]
      · rw [if_neg (by omega), if_neg hle]
    · simp [hf]

theorem get_token_primary_exhausted_witness :
    ((get_token kernel_A "A" "x" 11).1 = QOS_TOKEN_YELLOW ↔
      (11 : int64_t).val ≤ node_A.e_bucket.val) ∧
    ((get_token kernel_A "A" "x" 11).1 = QOS_TOKEN_YELLOW →
      ∃ u1, find (get_token kernel_A "A" "x" 11).2._user_map (make_key "A" "x") = some u1 ∧
        u1.e_bucket.val = node_A.e_bucket.val - (11 : int64_t).val ∧
        u1.c_bucket = node_A.c_bucket ∧ u1.qos_limit = node_A.qos_limit ∧
        u1.running = true) ∧
    (node_A.e_bucket.val < (11 : int64_t).val →
      (get_token kernel_A "A" "x" 11).1 =
        if kernel_A._use_idle_flag = true ∧ (11 : int64_t).val ≤ kernel_A._idle_bucket.val
        then QOS_TOKEN_ORANGE else QOS_TOKEN_RED) :=
  get_token_primary_exhausted conf_A kernel_A "A" "x" 11 node_A Reachable.init (by decide)
    (by decide) (by decide) (by decide) (by decide)

/-- C4, as stated, fails in its second part. With the idle pool disabled, for the tenant of
quota `-5` right after `init`, the call of size `n = 2^63 - 1` has `c_bucket < n` and
`e_bucket < n`, yet the subtraction `-5 - n` wraps to `2^63 - 4` and the call is answered
`QOS_TOKEN_GREEN`, not `QOS_TOKEN_RED`. And once a call of size `-5` has brought the primary
bucket to 0, the call of size `n` is answered `QOS_TOKEN_YELLOW`, because `e_bucket - n`
wraps. -/
theorem get_token_wraps_with_idle_off :
    (init QosKernal.new conf_negative_quota_no_idle).2._use_idle_flag = false ∧
    find (init QosKernal.new conf_negative_quota_no_idle).2._user_map (make_key "A" "x") =
      some ⟨"A", "x", -5, -5, -5, false⟩ ∧
    (0 : Int) < (9223372036854775807 : int64_t).val ∧
    (-5 : int64_t).val < (9223372036854775807 : int64_t).val ∧
    (get_token (init QosKernal.new conf_negative_quota_no_idle).2 "A" "x"
        9223372036854775807).1 = QOS_TOKEN_GREEN ∧
    (get_token (init QosKernal.new conf_negative_quota_no_idle).2 "A" "x"
        (-5)).2._use_idle_flag = false ∧
    find (get_token (init QosKernal.new conf_negative_quota_no_idle).2 "A" "x"
        (-5)).2._user_map (make_key "A" "x") = some ⟨"A", "x", -5, 0, -5, true⟩ ∧
    (0 : int64_t).val < (9223372036854775807 : int64_t).val ∧
    (get_token (get_token (init QosKernal.new conf_negative_quota_no_idle).2 "A" "x" (-5)).2
      "A" "x" 9223372036854775807).1 = QOS_TOKEN_YELLOW := by
  refine ⟨by decide, by decide, by decide, by decide, by decide, by decide, by decide,
    by decide, by decide⟩

/-- C4, amended: for a registered tenant and a positive `n`, `get_token` returns
`QOS_TOKEN_ORANGE` only when `_use_idle_flag` is set; and with `_use_idle_flag` unset,
`c_bucket < n` and `e_bucket < n`, when neither `c_bucket - n` nor `e_bucket - n` falls below
`-2^63`, it returns `QOS_TOKEN_RED` and leaves `_idle_bucket` as it was. -/
theorem get_token_orange_needs_idle (s : QosKernal) (user_name product : String)
    (n : int64_t) (u : UserNode)
    (hfind : find s._user_map (make_key user_name product) = some u) (hn : 0 < n.val) :
    ((get_token s user_name product n).1 = QOS_TOKEN_ORANGE → s._use_idle_flag = true) ∧
    (s._use_idle_flag = false → u.c_bucket.val < n.val → u.e_bucket.val < n.val →
      -9223372036854775808 ≤ u.c_bucket.val - n.val →
      -9223372036854775808 ≤ u.e_bucket.val - n.val →
      (get_token s user_name product n).1 = QOS_TOKEN_RED ∧
      (get_token s user_name product n).2._idle_bucket = s._idle_bucket) := by
  have _ := hn
  constructor
  · intro h
    by_cases hc : 0 ≤ (u.c_bucket - n).val
    · rw [get_token_green s user_name product n u hfind hc] at h
      simp at h
    · by_cases he : 0 ≤ (u.e_bucket - n).val
      · rw [get_token_yellow s user_name product n u hfind (by omega) he] at h
        simp at h
      · rw [get_token_exhausted s user_name product n u hfind (by omega) (by omega)] at h
        simp only at h
        by_cases hf : s._use_idle_flag = true
        · exact hf
        · simp [hf] at h
  · intro hf hc he hcw hew
    have hcx := sub_val_exact u.c_bucket n hcw (by omega)
    have hex := sub_val_exact u.e_bucket n hew (by omega)
    rw [get_token_exhausted s user_name product n u hfind (by omega) (by omega)]
    simp [hf]

theorem get_token_orange_needs_idle_witness :
    ((get_token kernel_A_no_idle "A" "x" 11).1 = QOS_TOKEN_ORANGE →
      kernel_A_no_idle._use_idle_flag = true) ∧
    ((get_token kernel_A_no_idle "A" "x" 11).1 = QOS_TOKEN_RED ∧
      (get_token kernel_A_no_idle "A" "x" 11).2._idle_bucket =
        kernel_A_no_idle._idle_bucket) :=
  have h := get_token_orange_needs_idle kernel_A_no_idle "A" "x" 11 node_A
    (by decide) (by decide)
  ⟨h.1, h.2 (by decide) (by decide) (by decide) (by decide) (by decide)⟩

/-- C5, as stated, fails: for the tenant whose quota is `2^63 - 1`, right after `init` both
buckets hold the quota, the Replenisher sum `c_bucket_left + e_bucket_left` wraps to `-2`, and
the cycle leaves `e_bucket = -2`, not `min quota (max c 0 + max e 0)`, which is the quota. -/
theorem add_token_sum_wraps :
    find (init QosKernal.new conf_max).2._user_map (make_key "A" "x") =
      some ⟨"A", "x", 9223372036854775807, 9223372036854775807, 9223372036854775807, false⟩ ∧
    find (add_token (init QosKernal.new conf_max).2)._user_map (make_key "A" "x") =
      some ⟨"A", "x", 9223372036854775807, 9223372036854775807, -2, false⟩ ∧
    (-2 : int64_t).val = -2 ∧
    min (9223372036854775807 : Int) (max 9223372036854775807 0 + max 9223372036854775807 0) =
      9223372036854775807 := by
  refine ⟨by decide, by decide, by decide, by decide⟩

/-- C5, amended: one Replenisher cycle leaves every tenant with `c_bucket` equal to its
`qos_limit`, with its other fields and the keys as before, and, when
`max c_bucket 0 + max e_bucket 0` of the values before the cycle is at most `2^63 - 1`, with
`e_bucket` equal to `min qos_limit (max c_bucket 0 + max e_bucket 0)`; `_idle_bucket` becomes
`_idle_qos_limit` when `_use_idle_flag` is set and is unchanged otherwise. -/
theorem add_token_cycle (s : QosKernal) :
    (∀ key u, find s._user_map key = some u →
      ∃ u1, find (add_token s)._user_map key = some u1 ∧
        u1.c_bucket = u.qos_limit ∧ u1.qos_limit = u.qos_limit ∧
        u1.user_name = u.user_name ∧ u1.product = u.product ∧ u1.running = u.running ∧
        (max u.c_bucket.val 0 + max u.e_bucket.val 0 ≤ 9223372036854775807 →
          u1.e_bucket.val =
            min u.qos_limit.val (max u.c_bucket.val 0 + max u.e_bucket.val 0))) ∧
    (∀ key, find s._user_map key = none → find (add_token s)._user_map key = none) ∧
    (add_token s)._user_map.map Prod.fst = s._user_map.map Prod.fst ∧
    (s._use_idle_flag = true → (add_token s)._idle_bucket = s._idle_qos_limit) ∧
    (s._use_idle_flag = false → (add_token s)._idle_bucket = s._idle_bucket) ∧
    (add_token s)._idle_qos_limit = s._idle_qos_limit := by
  refine ⟨fun key u hfind => ?_, fun key hfind => ?_, ?_, fun hf => ?_, fun hf => ?_, ?_⟩
  · refine ⟨add_token_node u, ?_, rfl, rfl, rfl, rfl, rfl, add_token_node_e_bucket u⟩
    rw [add_token_user_map, find_map_node add_token_node, hfind]
    rfl
  · rw [add_token_user_map, find_map_node add_token_node, hfind]
    rfl
  · rw [add_token_user_map]
    simp [List.map_map, Function.comp_def]
  · simp [add_token, hf]
  · simp [add_token, hf]
  · exact (add_token_frame s).2.1

theorem add_token_cycle_witness :
    kernel_A._use_idle_flag = true ∧
    (∃ u1, find (add_token kernel_A)._user_map (make_key "A" "x") = some u1 ∧
      u1.c_bucket = node_A.qos_limit ∧
      u1.e_bucket.val =
        min node_A.qos_limit.val (max node_A.c_bucket.val 0 + max node_A.e_bucket.val 0)) ∧
    (add_token kernel_A)._idle_bucket = kernel_A._idle_qos_limit :=
  have h := (add_token_cycle kernel_A).1 (make_key "A" "x") node_A (by decide)
  ⟨by decide,
    h.elim (fun u1 hu => ⟨u1, hu.1, hu.2.1, hu.2.2.2.2.2.2 (by decide)⟩),
    (add_token_cycle kernel_A).2.2.2.1 (by decide)⟩

/-- C6, as stated, fails. With budget 100 and two active tenants of quota `2^63 - 1`, the
accumulator `qos_using` wraps to `-2` and the cycle stores `100 - (-2) = 102`, while
`max (_total_qos - S) 0` is 0 for the sum `S = 2^64 - 2` of the two quotas. And with budget 100
and one active tenant of quota `-2^63`, the difference `100 - S = 2^63 + 100` wraps to a
negative value and the cycle stores 0. -/
theorem adjust_idle_token_sum_wraps :
    Reachable conf_two_max kernel_two_max ∧
    kernel_two_max._total_qos.val = 100 ∧
    active_quota kernel_two_max._user_map = 18446744073709551614 ∧
    (adjust_idle_token kernel_two_max)._idle_qos_limit.val = 102 ∧
    max (kernel_two_max._total_qos.val - active_quota kernel_two_max._user_map) 0 = 0 ∧
    Reachable conf_min (get_token (init QosKernal.new conf_min).2 "A" "x" 1).2 ∧
    (get_token (init QosKernal.new conf_min).2 "A" "x" 1).2._total_qos.val = 100 ∧
    active_quota (get_token (init QosKernal.new conf_min).2 "A" "x" 1).2._user_map =
      -9223372036854775808 ∧
    (adjust_idle_token
      (get_token (init QosKernal.new conf_min).2 "A" "x" 1).2)._idle_qos_limit.val = 0 ∧
    max ((get_token (init QosKernal.new conf_min).2 "A" "x" 1).2._total_qos.val -
      active_quota (get_token (init QosKernal.new conf_min).2 "A" "x" 1).2._user_map) 0 =
        9223372036854775908 :=
  ⟨Reachable.get_token _ "B" "x" 1 (Reachable.get_token _ "A" "x" 1 Reachable.init),
    by decide, by decide, by decide, by decide,
    Reachable.get_token _ "A" "x" 1 Reachable.init,
    by decide, by decide, by decide, by decide⟩

/-- C6, amended: one Idle Estimator cycle sets `_idle_qos_limit` to `max (_total_qos - S) 0`,
`S` being the sum of `qos_limit` over the tenants whose `running` flag was set before the
cycle, when `_total_qos - S` lies between `-2^63` and `2^63 - 1`; in every case the result is
not negative, afterwards every tenant has `running` unset and its other fields as before,
entry by entry of the registry and hence for the bucket found under any key, and
`_idle_bucket` and `_total_qos` are unchanged. -/
theorem adjust_idle_token_cycle (s : QosKernal) :
    (-9223372036854775808 ≤ s._total_qos.val - active_quota s._user_map →
      s._total_qos.val - active_quota s._user_map ≤ 9223372036854775807 →
      (adjust_idle_token s)._idle_qos_limit.val =
        max (s._total_qos.val - active_quota s._user_map) 0) ∧
    0 ≤ (adjust_idle_token s)._idle_qos_limit.val ∧
    (adjust_idle_token s)._user_map =
      s._user_map.map (fun (obj : String × UserNode) =>
        (obj.1, { obj.2 with running := false })) ∧
    (∀ key, find (adjust_idle_token s)._user_map key =
      (find s._user_map key).map (fun u => { u with running := false })) ∧
    (adjust_idle_token s)._idle_bucket = s._idle_bucket ∧
    (adjust_idle_token s)._total_qos = s._total_qos := by
  refine ⟨adjust_idle_token_limit_exact s, ?_, adjust_idle_token_user_map s, fun key => ?_,
    rfl, rfl⟩
  · rw [adjust_idle_token_limit]
    exact le_max_right _ _
  · rw [adjust_idle_token_user_map]
    exact find_map_node (fun u => { u with running := false }) s._user_map key

theorem adjust_idle_token_cycle_witness :
    (adjust_idle_token (get_token kernel_A "A" "x" 4).2)._idle_qos_limit.val =
      max ((get_token kernel_A "A" "x" 4).2._total_qos.val -
        active_quota (get_token kernel_A "A" "x" 4).2._user_map) 0 :=
  (adjust_idle_token_cycle (get_token kernel_A "A" "x" 4).2).1 (by decide) (by decide)

/-- C10: for a registered tenant, whatever the token count, `get_token` does not return
`QOS_TOKEN_ERR` (it returns one of the four tiers) and the tenant has `running` set
afterwards. -/
theorem get_token_marks_running (s : QosKernal) (user_name product : String) (n : int64_t)
    (u : UserNode) (hfind : find s._user_map (make_key user_name product) = some u) :
    (get_token s user_name product n).1 ≠ QOS_TOKEN_ERR ∧
    ((get_token s user_name product n).1 = QOS_TOKEN_GREEN ∨
      (get_token s user_name product n).1 = QOS_TOKEN_YELLOW ∨
      (get_token s user_name product n).1 = QOS_TOKEN_ORANGE ∨
      (get_token s user_name product n).1 = QOS_TOKEN_RED) ∧
    ∃ u1, find (get_token s user_name product n).2._user_map (make_key user_name product) =
        some u1 ∧ u1.running = true := by
  by_cases hc : 0 ≤ (u.c_bucket - n).val
  · rw [get_token_green s user_name product n u hfind hc]
    exact ⟨by simp, by simp, _, find_store_same _ _ u _ hfind, rfl⟩
  · by_cases he : 0 ≤ (u.e_bucket - n).val
    · rw [get_token_yellow s user_name product n u hfind (by omega) he]
      exact ⟨by simp, by simp, _, find_store_same _ _ u _ hfind, rfl⟩
    · rw [get_token_exhausted s user_name product n u hfind (by omega) (by omega)]
      refine ⟨?_, ?_, _, find_store_same _ _ u _ hfind, rfl⟩
      · simp only
        split <;> simp
      · simp only
        split <;> simp

theorem get_token_marks_running_witness :
    (get_token kernel_A "A" "x" 25).1 ≠ QOS_TOKEN_ERR ∧
    ((get_token kernel_A "A" "x" 25).1 = QOS_TOKEN_GREEN ∨
      (get_token kernel_A "A" "x" 25).1 = QOS_TOKEN_YELLOW ∨
      (get_token kernel_A "A" "x" 25).1 = QOS_TOKEN_ORANGE ∨
      (get_token kernel_A "A" "x" 25).1 = QOS_TOKEN_RED) ∧
    ∃ u1, find (get_token kernel_A "A" "x" 25).2._user_map (make_key "A" "x") =
        some u1 ∧ u1.running = true :=
  get_token_marks_running kernel_A "A" "x" 25 node_A (by decide)

/-- C7, as stated, fails: after the three calls of size 4 on the fresh tenant of quota 10 the
primary bucket is back at 2 (the third call put its 4 tokens back), so the Replenisher cycle
leaves the overflow bucket at `min 10 (2 + 6) = 8`, not at 6. -/
theorem worked_example_overflow_is_8 :
    (get_token kernel_A "A" "x" 4).1 = QOS_TOKEN_GREEN ∧
    (get_token (get_token kernel_A "A" "x" 4).2 "A" "x" 4).1 = QOS_TOKEN_GREEN ∧
    (get_token (get_token (get_token kernel_A "A" "x" 4).2 "A" "x" 4).2 "A" "x" 4).1 =
      QOS_TOKEN_YELLOW ∧
    find (get_token (get_token (get_token kernel_A "A" "x" 4).2 "A" "x" 4).2 "A" "x" 4).2._user_map
      (make_key "A" "x") = some ⟨"A", "x", 10, 2, 6, true⟩ ∧
    find (add_token
        (get_token (get_token (get_token kernel_A "A" "x" 4).2 "A" "x" 4).2 "A" "x" 4).2)._user_map
      (make_key "A" "x") = some ⟨"A", "x", 10, 10, 8, true⟩ ∧
    ¬ (∃ u, find (add_token
        (get_token (get_token (get_token kernel_A "A" "x" 4).2 "A" "x" 4).2 "A" "x" 4).2)._user_map
      (make_key "A" "x") = some u ∧ u.c_bucket = 10 ∧ u.e_bucket = 6) := by
  refine ⟨by decide, by decide, by decide, by decide, by decide, ?_⟩
  rintro ⟨u, hu, -, he⟩
  have h8 : find (add_token
      (get_token (get_token (get_token kernel_A "A" "x" 4).2 "A" "x" 4).2 "A" "x" 4).2)._user_map
      (make_key "A" "x") = some ⟨"A", "x", 10, 10, 8, true⟩ := by decide
  rw [h8] at hu
  cases hu
  exact absurd he (by decide)

/-- C7, amended: the worked example. With `total_qos = 100`, `use_idle` set and one tenant of
quota 10, `init` leaves both buckets at 10; three `get_token` calls of size 4 return
`QOS_TOKEN_GREEN` (primary 6), `QOS_TOKEN_GREEN` (primary 2) and `QOS_TOKEN_YELLOW` (primary
still 2, overflow 6); the Replenisher cycle that follows leaves primary 10 and overflow
`min 10 (2 + 6) = 8`. It holds for every tenant name and resource class. -/
theorem worked_example_quota_10 (A x : String) :
    let conf : Configure :=
      { total_qos := some 100, use_idle := some 1
        users := [{ user_name := some A, product := some x, qos_limit := some 10 }] }
    let s0 := (init QosKernal.new conf).2
    let r1 := get_token s0 A x 4
    let r2 := get_token r1.2 A x 4
    let r3 := get_token r2.2 A x 4
    let s4 := add_token r3.2
    (init QosKernal.new conf).1 = some QOS_E_SUCC ∧
    s0._total_qos = 100 ∧ s0._use_idle_flag = true ∧
    find s0._user_map (make_key A x) = some ⟨A, x, 10, 10, 10, false⟩ ∧
    r1.1 = QOS_TOKEN_GREEN ∧ find r1.2._user_map (make_key A x) = some ⟨A, x, 10, 6, 10, true⟩ ∧
    r2.1 = QOS_TOKEN_GREEN ∧ find r2.2._user_map (make_key A x) = some ⟨A, x, 10, 2, 10, true⟩ ∧
    r3.1 = QOS_TOKEN_YELLOW ∧ find r3.2._user_map (make_key A x) = some ⟨A, x, 10, 2, 6, true⟩ ∧
    find s4._user_map (make_key A x) = some ⟨A, x, 10, 10, 8, true⟩ := by
  have e1 : ((10 : int64_t) - 4) = 6 := by decide
  have e2 : ((6 : int64_t) - 4) = 2 := by decide
  have e3 : ¬ (0 ≤ ((2 : int64_t) - 4).val) := by decide
  have e4 : (0 : Int) ≤ (6 : int64_t).val := by decide
  have e5 : (0 : Int) ≤ (2 : int64_t).val := by decide
  have e6 : min64 (10 : int64_t) ((2 : int64_t) + 6) = 8 := by decide
  have e7 : (2 : int64_t).val > 0 := by decide
  have e8 : (6 : int64_t).val > 0 := by decide
  simp [init, init_users, emplace, find, thread_run, thread_run_idle_adjust, QosKernal.new,
    get_token, get_token_node_eq, store, add_token, add_token_node, e1, e2, e3, e4, e5, e6, e7,
    e8]

/-- C8, as stated, fails. With a budget of `-1` the kernel right after `init` has
`_idle_qos_limit = 0`, above the budget; with a budget of 100 and a tenant of quota `-5`,
after one call of that tenant and one Idle Estimator cycle `_idle_qos_limit` is 105; and with a
budget of 100 and two active tenants of quota `2^63 - 1` the in-use sum wraps and the cycle
leaves `_idle_qos_limit = 102`. -/
theorem idle_qos_limit_above_budget :
    (init QosKernal.new conf_negative_budget).1 = some QOS_E_SUCC ∧
    Reachable conf_negative_budget (init QosKernal.new conf_negative_budget).2 ∧
    (init QosKernal.new conf_negative_budget).2._total_qos.val = -1 ∧
    (init QosKernal.new conf_negative_budget).2._idle_qos_limit.val = 0 ∧
    (init QosKernal.new conf_negative_quota).1 = some QOS_E_SUCC ∧
    Reachable conf_negative_quota
      (adjust_idle_token (get_token (init QosKernal.new conf_negative_quota).2 "A" "x" 1).2) ∧
    (adjust_idle_token
      (get_token (init QosKernal.new conf_negative_quota).2 "A" "x" 1).2)._total_qos.val = 100 ∧
    (adjust_idle_token
      (get_token (init QosKernal.new conf_negative_quota).2 "A" "x" 1).2)._idle_qos_limit.val =
        105 ∧
    (init QosKernal.new conf_two_max).1 = some QOS_E_SUCC ∧
    Reachable conf_two_max (adjust_idle_token kernel_two_max) ∧
    (adjust_idle_token kernel_two_max)._total_qos.val = 100 ∧
    (adjust_idle_token kernel_two_max)._idle_qos_limit.val = 102 :=
  ⟨by decide, Reachable.init, by decide, by decide, by decide,
    Reachable.adjust_idle_token _ (Reachable.get_token _ "A" "x" 1 Reachable.init),
    by decide, by decide, by decide,
    Reachable.adjust_idle_token _
      (Reachable.get_token _ "B" "x" 1 (Reachable.get_token _ "A" "x" 1 Reachable.init)),
    by decide, by decide⟩

/-- C8, amended: in every state reached from a constructed kernel by `init` and then any
sequence of `get_token` calls, Replenisher cycles and Idle Estimator cycles,
`0 ≤ _idle_qos_limit`; and `_idle_qos_limit ≤ _total_qos` when the configuration supplies a
budget and quotas that are not negative and the quotas that `init` registers sum to at most
the budget plus `2^63` (as they do when their sum is at most `2^63 - 1`). -/
theorem idle_qos_limit_bounds (conf : Configure) (s : QosKernal) (h : Reachable conf s) :
    0 ≤ s._idle_qos_limit.val ∧
    ((∀ t, conf.total_qos = some t → 0 ≤ t.val) →
      (∀ c ∈ conf.users, ∀ q, c.qos_limit = some q → 0 ≤ q.val) →
      total_quota (init QosKernal.new conf).2._user_map ≤
        (init QosKernal.new conf).2._total_qos.val + 9223372036854775808 →
      s._idle_qos_limit.val ≤ s._total_qos.val) :=
  ⟨(reachable_invariant conf s h).1,
    fun ht hq hsum => ((reachable_invariant conf s h).2 ⟨ht, hq⟩ hsum).2.2.2.2⟩

theorem idle_qos_limit_bounds_witness :
    Reachable conf_A (adjust_idle_token (get_token kernel_A "A" "x" 4).2) ∧
    0 ≤ (adjust_idle_token (get_token kernel_A "A" "x" 4).2)._idle_qos_limit.val ∧
    (adjust_idle_token (get_token kernel_A "A" "x" 4).2)._idle_qos_limit.val ≤
      (adjust_idle_token (get_token kernel_A "A" "x" 4).2)._total_qos.val :=
  have hr : Reachable conf_A (adjust_idle_token (get_token kernel_A "A" "x" 4).2) :=
    Reachable.adjust_idle_token _ (Reachable.get_token _ "A" "x" 4 Reachable.init)
  ⟨hr, (idle_qos_limit_bounds conf_A _ hr).1,
    (idle_qos_limit_bounds conf_A _ hr).2
      (fun t ht => by simp only [conf_A, Option.some.injEq] at ht; subst ht; decide)
      (fun c hc q hq => by
        simp only [conf_A, List.mem_singleton] at hc
        subst hc
        simp only [Option.some.injEq] at hq
        subst hq
        decide)
      (by decide)⟩

/-- C9, as stated, fails: with two records of the same key, of quota 1 then 2, `init` succeeds
and the bucket found by lookup is the one of the first record (quota, primary and overflow 1),
not the one of the last record. -/
theorem init_duplicate_keeps_first :
    (init QosKernal.new conf_duplicate).1 = some QOS_E_SUCC ∧
    find (init QosKernal.new conf_duplicate).2._user_map (make_key "A" "x") =
      some ⟨"A", "x", 1, 1, 1, false⟩ ∧
    find (init QosKernal.new conf_duplicate).2._user_map (make_key "A" "x") ≠
      some ⟨"A", "x", 2, 2, 2, false⟩ := by
  refine ⟨by decide, by decide, by decide⟩

/-- C9, amended: on a kernel that has started no loop (neither thread member is joinable, as
on a constructed kernel), when every record of the tenant list is readable, `init` raises no
error whatever keys repeat, and for a key that was not registered before the call the bucket
found by lookup afterwards is the one built from the first record with that key: its quota,
primary and overflow are that record's quota (`emplace` does not replace an entry). -/
theorem init_first_record_wins (s : QosKernal) (conf : Configure) (total_qos : int64_t)
    (use_idle : Int) (pre post : List UserConf) (user_name product : String)
    (qos_limit : int64_t)
    (hstart : s._add_token_thread = false ∧ s._idle_adjust_thread = false)
    (ht : conf.total_qos = some total_qos) (hi : conf.use_idle = some use_idle)
    (hu : conf.users = pre ++ ⟨some user_name, some product, some qos_limit⟩ :: post)
    (hread : ∀ c ∈ conf.users, c.user_name.isSome = true ∧ c.product.isSome = true ∧
      c.qos_limit.isSome = true)
    (hfresh : find s._user_map (make_key user_name product) = none)
    (hpre : ∀ c ∈ pre, ∀ a b, c.user_name = some a → c.product = some b →
      make_key a b ≠ make_key user_name product) :
    (init s conf).1 = some QOS_E_SUCC ∧
    find (init s conf).2._user_map (make_key user_name product) =
      some ⟨user_name, product, qos_limit, qos_limit, qos_limit, false⟩ := by
  have hok : (init_users conf.users s._user_map).1 = true :=
    init_users_readable conf.users s._user_map hread
  have hfind := init_users_first_wins pre s._user_map post user_name product qos_limit hfresh
    hpre (fun c hc => hread c (by rw [hu]; exact List.mem_append_left _ hc))
  rw [← hu] at hfind
  have hrun := thread_run_not_joinable
    { s with
      _total_qos := total_qos, _use_idle_flag := decide (use_idle ≠ 0)
      _user_map := (init_users conf.users s._user_map).2 } hstart.1 hstart.2
  simp only [init, ht, hi, hok, if_true, thread_run_user_map, hrun, Option.map_some']
  exact ⟨trivial, hfind⟩

theorem init_first_record_wins_witness :
    (init QosKernal.new conf_duplicate).1 = some QOS_E_SUCC ∧
    find (init QosKernal.new conf_duplicate).2._user_map (make_key "A" "x") =
      some ⟨"A", "x", 1, 1, 1, false⟩ :=
  init_first_record_wins QosKernal.new conf_duplicate 100 0 []
    [⟨some "A", some "x", some 2⟩] "A" "x" 1 (by decide) rfl rfl rfl (by decide) (by decide)
    (by intro c hc; cases hc)

/-- C11, as stated, fails: `("a\tb", "c")` and `("a", "b\tc")` are different pairs with the
same key, and in a kernel where only the first is registered a `get_token` call for the second
reaches its bucket (it returns `QOS_TOKEN_GREEN`, not `QOS_TOKEN_ERR`). -/
theorem make_key_collision :
    make_key "a\tb" "c" = make_key "a" "b\tc" ∧ "a\tb" ≠ "a" ∧ "c" ≠ "b\tc" ∧
    (init QosKernal.new conf_tab).1 = some QOS_E_SUCC ∧
    (get_token (init QosKernal.new conf_tab).2 "a" "b\tc" 4).1 = QOS_TOKEN_GREEN ∧
    find (get_token (init QosKernal.new conf_tab).2 "a" "b\tc" 4).2._user_map
      (make_key "a\tb" "c") = some ⟨"a\tb", "c", 10, 6, 10, true⟩ := by
  refine ⟨by decide, by decide, by decide, by decide, by decide, by decide⟩

/-- C11, amended: among the pairs whose name holds no tab the key is unique, that is,
`make_key name1 class1 = make_key name2 class2` only if `name1 = name2` and
`class1 = class2`; so in every state of a run, a lookup for a pair whose name holds no tab that
finds a bucket whose name holds no tab has found the bucket registered with exactly that name
and resource class. -/
theorem make_key_unique_without_tab :
    (∀ name1 class1 name2 class2 : String,
      '\t' ∉ name1.data → '\t' ∉ name2.data →
      make_key name1 class1 = make_key name2 class2 → name1 = name2 ∧ class1 = class2) ∧
    (∀ (conf : Configure) (s : QosKernal) (user_name product : String) (u : UserNode),
      Reachable conf s → '\t' ∉ user_name.data → '\t' ∉ u.user_name.data →
      find s._user_map (make_key user_name product) = some u →
      u.user_name = user_name ∧ u.product = product) := by
  refine ⟨make_key_inj, fun conf s user_name product u hr h1 h2 hfind => ?_⟩
  have hk := reachable_keys conf s hr _ (find_mem _ _ _ hfind)
  simp only at hk
  obtain ⟨ha, hb⟩ := make_key_inj _ _ _ _ h1 h2 hk
  exact ⟨ha.symm, hb.symm⟩

theorem make_key_unique_without_tab_witness :
    (make_key "A" "x" = make_key "A" "x" → "A" = "A" ∧ "x" = "x") ∧
    (node_A.user_name = "A" ∧ node_A.product = "x") :=
  ⟨make_key_unique_without_tab.1 "A" "x" "A" "x" (by decide) (by decide),
    make_key_unique_without_tab.2 conf_A kernel_A "A" "x" node_A Reachable.init (by decide)
      (by decide) (by decide)⟩

/-- C12: when `get_token` returns `QOS_TOKEN_RED` for a registered tenant and a positive `n`,
every subtract was undone: the kernel afterwards is the kernel before with only the `running`
flag of that tenant set, so `c_bucket`, `e_bucket` and `_idle_bucket` have the values they had
before the call. -/
theorem get_token_red_rollback (s : QosKernal) (user_name product : String) (n : int64_t)
    (u : UserNode) (hfind : find s._user_map (make_key user_name product) = some u)
    (hn : 0 < n.val) (hred : (get_token s user_name product n).1 = QOS_TOKEN_RED) :
    (get_token s user_name product n).2 =
      { s with _user_map := store s._user_map (make_key user_name product)
                 { u with running := true } } ∧
    find (get_token s user_name product n).2._user_map (make_key user_name product) =
      some { u with running := true } ∧
    (get_token s user_name product n).2._idle_bucket = s._idle_bucket := by
  have _ := hn
  have hstate : (get_token s user_name product n).2 =
      { s with _user_map := store s._user_map (make_key user_name product)
                 { u with running := true } } := by
    by_cases hc : 0 ≤ (u.c_bucket - n).val
    · rw [get_token_green s user_name product n u hfind hc] at hred
      simp at hred
    · by_cases he : 0 ≤ (u.e_bucket - n).val
      · rw [get_token_yellow s user_name product n u hfind (by omega) he] at hred
        simp at hred
      · rw [get_token_exhausted s user_name product n u hfind (by omega) (by omega)] at hred ⊢
        simp only at hred ⊢
        by_cases hi : s._use_idle_flag = true ∧ 0 ≤ (s._idle_bucket - n).val
        · simp [hi] at hred
        · simp [hi]
  rw [hstate]
  exact ⟨rfl, find_store_same _ _ u _ hfind, rfl⟩

theorem get_token_red_rollback_witness :
    (get_token kernel_A "A" "x" 11).2 =
      { kernel_A with _user_map := store kernel_A._user_map (make_key "A" "x")
                        { node_A with running := true } } ∧
    find (get_token kernel_A "A" "x" 11).2._user_map (make_key "A" "x") =
      some { node_A with running := true } ∧
    (get_token kernel_A "A" "x" 11).2._idle_bucket = kernel_A._idle_bucket :=
  get_token_red_rollback kernel_A "A" "x" 11 node_A (by decide) (by decide) (by decide)

/-- C13, as stated, fails: with the record of `("A", "x")` followed by a record that cannot be
read, `init` returns `QOS_E_ERR` and launches no loop, yet `("A", "x")` is registered (a
`get_token` call for it returns `QOS_TOKEN_GREEN`) and `_total_qos` and `_use_idle_flag` have
the new values 100 and true instead of the 0 and false of the constructed kernel. -/
theorem init_failure_keeps_partial_state :
    (init QosKernal.new conf_bad_second).1 = some QOS_E_ERR ∧
    (init QosKernal.new conf_bad_second).2.add_token_launched = 0 ∧
    (init QosKernal.new conf_bad_second).2.idle_adjust_launched = 0 ∧
    (get_token (init QosKernal.new conf_bad_second).2 "A" "x" 4).1 = QOS_TOKEN_GREEN ∧
    QosKernal.new._total_qos = 0 ∧
    (init QosKernal.new conf_bad_second).2._total_qos = 100 ∧
    QosKernal.new._use_idle_flag = false ∧
    (init QosKernal.new conf_bad_second).2._use_idle_flag = true := by
  refine ⟨by decide, by decide, by decide, by decide, by decide, by decide, by decide,
    by decide⟩

/-- C13, amended: when a read of the configuration raises (in the global section or at a
tenant record), `init` returns `QOS_E_ERR` and launches no loop, and nothing is rolled back:
what was read before the failing read stays written. A failure at `total_qos` leaves the
kernel as it was; a failure at `use_idle` leaves the new `_total_qos`; a failure at a tenant
record leaves the new `_total_qos` and `_use_idle_flag` and the registry built from the records
before it. -/
theorem init_failure (s : QosKernal) (conf : Configure)
    (hraise : conf.total_qos = none ∨ conf.use_idle = none ∨ ∃ c ∈ conf.users, Unreadable c) :
    (init s conf).1 = some QOS_E_ERR ∧
    (init s conf).2.add_token_launched = s.add_token_launched ∧
    (init s conf).2.idle_adjust_launched = s.idle_adjust_launched ∧
    (conf.total_qos = none → (init s conf).2 = s) ∧
    (∀ t, conf.total_qos = some t → conf.use_idle = none →
      (init s conf).2 = { s with _total_qos := t }) ∧
    (∀ t f pre bad post, conf.total_qos = some t → conf.use_idle = some f →
      conf.users = pre ++ bad :: post →
      (∀ c ∈ pre, c.user_name.isSome = true ∧ c.product.isSome = true ∧
        c.qos_limit.isSome = true) →
      Unreadable bad →
      (init s conf).2 =
        { s with _total_qos := t, _use_idle_flag := decide (f ≠ 0)
                 _user_map := (init_users pre s._user_map).2 }) := by
  cases ht : conf.total_qos with
  | none => simp [init, ht]
  | some t =>
    cases hi : conf.use_idle with
    | none => simp [init, ht, hi]
    | some f =>
      have hbad : ∃ c ∈ conf.users, Unreadable c := by
        rcases hraise with h | h | h
        · simp [ht] at h
        · simp [hi] at h
        · exact h
      have hfail := init_users_fails conf.users s._user_map hbad
      refine ⟨by simp [init, ht, hi, hfail], by simp [init, ht, hi, hfail],
        by simp [init, ht, hi, hfail], by simp, by simp, ?_⟩
      intro t1 f1 pre bad post ht1 hf1 hu hread hb
      simp only [Option.some.injEq] at ht1 hf1
      subst ht1 hf1
      have hstop := init_users_stops pre s._user_map bad post hread hb
      simp [init, ht, hi, hu, hstop]

theorem init_failure_witness :
    (init QosKernal.new conf_bad_second).1 = some QOS_E_ERR ∧
    (init QosKernal.new conf_bad_second).2 =
      { QosKernal.new with
        _total_qos := 100, _use_idle_flag := decide ((1 : Int) ≠ 0)
        _user_map := (init_users [⟨some "A", some "x", some 10⟩] QosKernal.new._user_map).2 } :=
  have h := init_failure QosKernal.new conf_bad_second
    (Or.inr (Or.inr ⟨⟨some "B", some "x", none⟩, by decide, Or.inr (Or.inr rfl)⟩))
  ⟨h.1, h.2.2.2.2.2 100 1 [⟨some "A", some "x", some 10⟩] ⟨some "B", some "x", none⟩ []
    rfl rfl rfl (by decide) (Or.inr (Or.inr rfl))⟩

/-- C14: what the code does on a double start. `thread_run` never sets the two running flags it
tests. The first `init` starts one loop of each kind and returns `QOS_E_SUCC`; a second `init`
(or a second `thread_run`) on that kernel passes the first test again, starts a second
Replenisher loop and assigns it to the joinable `_add_token_thread`, which calls
`std::terminate`: the call returns no status, two Replenisher loops and one Idle Estimator
loop have been started. -/
theorem init_twice_terminates :
    (∀ s : QosKernal,
      (thread_run s).2._add_token_thread_running = s._add_token_thread_running ∧
      (thread_run s).2._idle_adjust_thread_running = s._idle_adjust_thread_running) ∧
    (init QosKernal.new conf_A).1 = some QOS_E_SUCC ∧
    (init QosKernal.new conf_A).2.add_token_launched = 1 ∧
    (init QosKernal.new conf_A).2.idle_adjust_launched = 1 ∧
    (init QosKernal.new conf_A).2._add_token_thread_running = false ∧
    (init (init QosKernal.new conf_A).2 conf_A).1 = none ∧
    (init (init QosKernal.new conf_A).2 conf_A).2.add_token_launched = 2 ∧
    (init (init QosKernal.new conf_A).2 conf_A).2.idle_adjust_launched = 1 ∧
    (thread_run (init QosKernal.new conf_A).2).1 = none ∧
    (thread_run (init QosKernal.new conf_A).2).2.add_token_launched = 2 ∧
    (thread_run (init QosKernal.new conf_A).2).2.idle_adjust_launched = 1 := by
  refine ⟨fun s => ⟨(thread_run_frame s).2.2.2.2.2.1, (thread_run_frame s).2.2.2.2.2.2⟩,
    by decide, by decide, by decide, by decide, by decide, by decide, by decide, by decide,
    by decide, by decide⟩

/-- C15, as stated, fails. With budget 3 and the single tenant `("B", "x")` of quota 5, the
state after `init` and the state after one refused call of `("B", "x")` differ only in the
`running` flag of that tenant, and one Idle Estimator cycle gives 3 on the first and 0 on the
second (`3 - 5` is cut off at 0): a rise of 3, not 5. With budget 0 and two active tenants of
quota `2^62`, the in-use sum wraps: the cycle gives 0 when `("B", "x")` was inactive and
`2^63 - 5` when it was active. And with budget 100 and an active tenant of quota `-2^63`, the
budget minus the in-use sum exceeds `2^63 - 1` and wraps: the cycle gives 0 in both cases. -/
theorem idle_ceiling_rise_is_not_5 :
    find (init QosKernal.new conf_B).2._user_map (make_key "B" "x") = some node_B ∧
    (get_token (init QosKernal.new conf_B).2 "B" "x" 6).2 =
      { (init QosKernal.new conf_B).2 with
        _user_map := store (init QosKernal.new conf_B).2._user_map (make_key "B" "x")
          { node_B with running := true } } ∧
    (adjust_idle_token (init QosKernal.new conf_B).2)._idle_qos_limit.val = 3 ∧
    (adjust_idle_token
      (get_token (init QosKernal.new conf_B).2 "B" "x" 6).2)._idle_qos_limit.val = 0 ∧
    find kernel_B_large._user_map (make_key "B" "x") = some node_B ∧
    (get_token kernel_B_large "B" "x" 6).2 =
      { kernel_B_large with
        _user_map := store kernel_B_large._user_map (make_key "B" "x")
          { node_B with running := true } } ∧
    (adjust_idle_token kernel_B_large)._idle_qos_limit.val = 0 ∧
    (adjust_idle_token (get_token kernel_B_large "B" "x" 6).2)._idle_qos_limit.val =
      9223372036854775803 ∧
    find kernel_B_min._user_map (make_key "B" "x") = some node_B ∧
    (get_token kernel_B_min "B" "x" 6).2 =
      { kernel_B_min with
        _user_map := store kernel_B_min._user_map (make_key "B" "x")
          { node_B with running := true } } ∧
    active_quota (get_token kernel_B_min "B" "x" 6).2._user_map ≤
      (get_token kernel_B_min "B" "x" 6).2._total_qos.val ∧
    (adjust_idle_token kernel_B_min)._idle_qos_limit.val = 0 ∧
    (adjust_idle_token (get_token kernel_B_min "B" "x" 6).2)._idle_qos_limit.val = 0 := by
  refine ⟨by decide, by decide, by decide, by decide, by decide, by decide, by decide,
    by decide, by decide, by decide, by decide, by decide, by decide⟩

/-- C15, amended: for two kernel states that differ only in the `running` flag of one tenant of
quota 5 (unset in the first, set in the second), when the budget minus the in-use sum lies
between `-2^63` and `2^63 - 1` in both states, the `_idle_qos_limit` that one Idle Estimator
cycle produces on the first is exactly 5 higher than on the second if the budget covers the
in-use sum of the second state (nothing is cut off at 0), and in every such case it is at
least as high and at most 5 higher. -/
theorem idle_ceiling_rise (s : QosKernal) (pre post : UserMap) (k : String) (u : UserNode)
    (hmap : s._user_map = pre ++ (k, u) :: post)
    (hrun : u.running = false) (hq : u.qos_limit.val = 5)
    (hlo : -9223372036854775808 ≤
      s._total_qos.val - active_quota (pre ++ (k, { u with running := true }) :: post))
    (hhi : s._total_qos.val - active_quota (pre ++ (k, u) :: post) ≤ 9223372036854775807) :
    (active_quota (pre ++ (k, { u with running := true }) :: post) ≤ s._total_qos.val →
      (adjust_idle_token s)._idle_qos_limit.val =
        (adjust_idle_token
          { s with
            _user_map := pre ++ (k, { u with running := true }) :: post })._idle_qos_limit.val
          + 5) ∧
    (adjust_idle_token
        { s with
          _user_map := pre ++ (k, { u with running := true }) :: post })._idle_qos_limit.val ≤
      (adjust_idle_token s)._idle_qos_limit.val ∧
    (adjust_idle_token s)._idle_qos_limit.val ≤
      (adjust_idle_token
        { s with
          _user_map := pre ++ (k, { u with running := true }) :: post })._idle_qos_limit.val
        + 5 := by
  have hflag : active_quota (pre ++ (k, { u with running := true }) :: post) =
      active_quota (pre ++ (k, u) :: post) + 5 := by
    rw [active_quota_flag pre post k u hrun, hq]
  rw [hflag] at hlo
  have h1 := adjust_idle_token_limit_exact s (by rw [hmap]; omega) (by rw [hmap]; omega)
  have h2 := adjust_idle_token_limit_exact
    { s with _user_map := pre ++ (k, { u with running := true }) :: post }
    (by simp only; rw [hflag]; omega) (by simp only; rw [hflag]; omega)
  simp only at h2
  rw [h1, h2, hmap, hflag]
  refine ⟨fun h => ?_, ?_, ?_⟩
  · rw [max_eq_left (by omega), max_eq_left (by omega)]
    omega
  · exact max_le (le_max_of_le_left (by omega)) (le_max_right _ _)
  · rcases le_total 0 (s._total_qos.val - (active_quota (pre ++ (k, u) :: post) + 5))
      with h | h
    · rw [max_eq_left h, max_eq_left (by omega)]
      omega
    · rw [max_eq_right h]
      exact max_le (by omega) (by omega)

theorem idle_ceiling_rise_witness :
    (adjust_idle_token (init QosKernal.new conf_B_100).2)._idle_qos_limit.val =
      (adjust_idle_token
        { (init QosKernal.new conf_B_100).2 with
          _user_map := [] ++ (make_key "B" "x", { node_B with running := true })
            :: [] })._idle_qos_limit.val + 5 :=
  (idle_ceiling_rise (init QosKernal.new conf_B_100).2 [] [] (make_key "B" "x") node_B
    (by decide) (by decide) (by decide) (by decide) (by decide)).1 (by decide)

/-- C16, as stated, fails: the quota `2^62` is not negative, yet after `init` and one
Replenisher cycle the overflow bucket of that tenant is `-2^63`, because the sum `2^62 + 2^62`
of the two full buckets wraps. -/
theorem overflow_bucket_negative_after_reset :
    (∀ c ∈ conf_quota_2_62.users, ∀ q, c.qos_limit = some q → 0 ≤ q.val) ∧
    ReachablePositive conf_quota_2_62 (add_token (init QosKernal.new conf_quota_2_62).2) ∧
    find (add_token (init QosKernal.new conf_quota_2_62).2)._user_map (make_key "A" "x") =
      some ⟨"A", "x", 4611686018427387904, 4611686018427387904, -9223372036854775808,
        false⟩ ∧
    (-9223372036854775808 : int64_t).val < 0 := by
  refine ⟨fun c hc q hq => ?_, ReachablePositive.add_token _ ReachablePositive.init,
    by decide, by decide⟩
  simp only [conf_quota_2_62, List.mem_singleton] at hc
  subst hc
  simp only [Option.some.injEq] at hq
  subst hq
  decide

/-- C16, amended: when every quota the configuration supplies is between 0 and `2^62 - 1` (so
that twice a quota fits in an `int64_t`), every state of a run made of `init`, `get_token`
calls with a positive count, Replenisher cycles and Idle Estimator cycles has
`0 ≤ c_bucket ≤ qos_limit` and `0 ≤ e_bucket ≤ qos_limit` for every tenant (every entry of the
registry, hence every bucket found by a lookup) and `0 ≤ _idle_bucket`. -/
theorem buckets_in_range (conf : Configure) (s : QosKernal)
    (hq : ∀ c ∈ conf.users, ∀ q, c.qos_limit = some q →
      0 ≤ q.val ∧ q.val ≤ 4611686018427387903)
    (h : ReachablePositive conf s) :
    (∀ obj ∈ s._user_map,
      0 ≤ obj.2.c_bucket.val ∧ obj.2.c_bucket.val ≤ obj.2.qos_limit.val ∧
      0 ≤ obj.2.e_bucket.val ∧ obj.2.e_bucket.val ≤ obj.2.qos_limit.val) ∧
    (∀ key u, find s._user_map key = some u →
      0 ≤ u.c_bucket.val ∧ u.c_bucket.val ≤ u.qos_limit.val ∧
      0 ≤ u.e_bucket.val ∧ u.e_bucket.val ≤ u.qos_limit.val) ∧
    0 ≤ s._idle_bucket.val := by
  obtain ⟨hm, hi, -⟩ := reachable_positive_invariant conf hq s h
  exact ⟨fun obj hobj => (hm obj hobj).1,
    fun key u hfind => (hm (key, u) (find_mem _ _ _ hfind)).1, hi⟩

theorem buckets_in_range_witness :
    ReachablePositive conf_A (add_token (get_token kernel_A "A" "x" 4).2) ∧
    (∀ key u, find (add_token (get_token kernel_A "A" "x" 4).2)._user_map key = some u →
      0 ≤ u.c_bucket.val ∧ u.c_bucket.val ≤ u.qos_limit.val ∧
      0 ≤ u.e_bucket.val ∧ u.e_bucket.val ≤ u.qos_limit.val) ∧
    0 ≤ (add_token (get_token kernel_A "A" "x" 4).2)._idle_bucket.val :=
  have hr : ReachablePositive conf_A (add_token (get_token kernel_A "A" "x" 4).2) :=
    ReachablePositive.add_token _
      (ReachablePositive.get_token _ "A" "x" 4 (by decide) ReachablePositive.init)
  have hq : ∀ c ∈ conf_A.users, ∀ q, c.qos_limit = some q →
      0 ≤ q.val ∧ q.val ≤ 4611686018427387903 :=
    fun c hc q hl => by
      simp only [conf_A, List.mem_singleton] at hc
      subst hc
      simp only [Option.some.injEq] at hl
      subst hl
      decide
  ⟨hr, (buckets_in_range conf_A _ hq hr).2.1, (buckets_in_range conf_A _ hq hr).2.2⟩

/-- C17: in a state of a run (reached from `init` by `get_token` calls, Replenisher cycles and
Idle Estimator cycles), for a tenant with quota `Q ≥ 0`, `0 ≤ c_bucket ≤ Q` and
`0 ≤ e_bucket ≤ Q`, and for every finite sequence of `get_token` calls (of any tenants) with
positive sizes and no Replenisher cycle in between, the sizes of the calls to that tenant's
key answered `QOS_TOKEN_GREEN` or `QOS_TOKEN_YELLOW` sum to at most `c_bucket + e_bucket` of
the start, hence to at most `2 * Q`, and the sizes of all the calls answered
`QOS_TOKEN_ORANGE` sum to at most `_idle_bucket` of the start. -/
theorem rate_bound (conf : Configure) (s : QosKernal) (user_name product : String)
    (u : UserNode) (calls : List (String × String × int64_t))
    (hreach : Reachable conf s)
    (hfind : find s._user_map (make_key user_name product) = some u)
    (hQ : 0 ≤ u.qos_limit.val)
    (hc : 0 ≤ u.c_bucket.val ∧ u.c_bucket.val ≤ u.qos_limit.val)
    (he : 0 ≤ u.e_bucket.val ∧ u.e_bucket.val ≤ u.qos_limit.val)
    (hpos : ∀ call ∈ calls, 0 < call.2.2.val) :
    granted_sum (make_key user_name product) calls (get_token_calls s calls).1 ≤
      u.c_bucket.val + u.e_bucket.val ∧
    granted_sum (make_key user_name product) calls (get_token_calls s calls).1 ≤
      2 * u.qos_limit.val ∧
    idle_granted_sum calls (get_token_calls s calls).1 ≤ s._idle_bucket.val := by
  have _ := hQ
  have h1 := granted_bound (make_key user_name product) calls s u hfind hc.1 he.1 hpos
  exact ⟨h1, by omega,
    idle_granted_bound calls s hpos (reachable_idle_nonneg conf s hreach).1⟩

theorem rate_bound_witness :
    granted_sum (make_key "A" "x") [("A", "x", 4), ("A", "x", 7), ("B", "x", 1)]
        (get_token_calls kernel_A [("A", "x", 4), ("A", "x", 7), ("B", "x", 1)]).1 ≤
      node_A.c_bucket.val + node_A.e_bucket.val ∧
    granted_sum (make_key "A" "x") [("A", "x", 4), ("A", "x", 7), ("B", "x", 1)]
        (get_token_calls kernel_A [("A", "x", 4), ("A", "x", 7), ("B", "x", 1)]).1 ≤
      2 * node_A.qos_limit.val ∧
    idle_granted_sum [("A", "x", 4), ("A", "x", 7), ("B", "x", 1)]
        (get_token_calls kernel_A [("A", "x", 4), ("A", "x", 7), ("B", "x", 1)]).1 ≤
      kernel_A._idle_bucket.val :=
  rate_bound conf_A kernel_A "A" "x" node_A [("A", "x", 4), ("A", "x", 7), ("B", "x", 1)]
    Reachable.init (by decide) (by decide) (by decide) (by decide) (by decide)

/-- C18: a `get_token` call for a registered tenant changes at most that tenant's `c_bucket`,
`e_bucket` and `running` and the shared `_idle_bucket`: the kernel afterwards is the kernel
before with the node under the tenant's key rewritten in those three fields and a new
`_idle_bucket`. Hence the bucket found under any other key, the tenant's quota and names, the
list of keys, `_total_qos`, `_use_idle_flag` and `_idle_qos_limit` are as before. -/
theorem get_token_isolation (s : QosKernal) (user_name product : String) (n : int64_t)
    (u : UserNode) (hfind : find s._user_map (make_key user_name product) = some u) :
    (∃ (c e i : int64_t),
      (get_token s user_name product n).2 =
        { s with
          _user_map := store s._user_map (make_key user_name product)
            { u with c_bucket := c, e_bucket := e, running := true }
          _idle_bucket := i }) ∧
    (∀ other, other ≠ make_key user_name product →
      find (get_token s user_name product n).2._user_map other = find s._user_map other) ∧
    (∃ u1, find (get_token s user_name product n).2._user_map (make_key user_name product) =
        some u1 ∧ u1.qos_limit = u.qos_limit ∧ u1.user_name = u.user_name ∧
        u1.product = u.product) ∧
    (get_token s user_name product n).2._user_map.map Prod.fst = s._user_map.map Prod.fst ∧
    (get_token s user_name product n).2._total_qos = s._total_qos ∧
    (get_token s user_name product n).2._use_idle_flag = s._use_idle_flag ∧
    (get_token s user_name product n).2._idle_qos_limit = s._idle_qos_limit := by
  obtain ⟨c, e, i, h⟩ := get_token_registered s user_name product n u hfind
  refine ⟨⟨c, e, i, h⟩, ?_⟩
  rw [h]
  exact ⟨fun other ho => find_store_other _ _ _ _ ho,
    ⟨_, find_store_same _ _ u _ hfind, rfl, rfl, rfl⟩, store_keys _ _ _, rfl, rfl, rfl⟩

theorem get_token_isolation_witness :
    (∃ (c e i : int64_t),
      (get_token kernel_A "A" "x" 4).2 =
        { kernel_A with
          _user_map := store kernel_A._user_map (make_key "A" "x")
            { node_A with c_bucket := c, e_bucket := e, running := true }
          _idle_bucket := i }) ∧
    (∀ other, other ≠ make_key "A" "x" →
      find (get_token kernel_A "A" "x" 4).2._user_map other = find kernel_A._user_map other) ∧
    (∃ u1, find (get_token kernel_A "A" "x" 4).2._user_map (make_key "A" "x") =
        some u1 ∧ u1.qos_limit = node_A.qos_limit ∧ u1.user_name = node_A.user_name ∧
        u1.product = node_A.product) ∧
    (get_token kernel_A "A" "x" 4).2._user_map.map Prod.fst = kernel_A._user_map.map Prod.fst ∧
    (get_token kernel_A "A" "x" 4).2._total_qos = kernel_A._total_qos ∧
    (get_token kernel_A "A" "x" 4).2._use_idle_flag = kernel_A._use_idle_flag ∧
    (get_token kernel_A "A" "x" 4).2._idle_qos_limit = kernel_A._idle_qos_limit :=
  get_token_isolation kernel_A "A" "x" 4 node_A (by decide)

/-- C19, as stated, fails in its universal part: in `kernel_A` the tenant `("A", "x")` has
`c_bucket = 10 ≥ 0`, and for `n = -(2^63 - 1) ≤ 0` the subtraction `10 - n` wraps to a negative
value, so the call is not answered `QOS_TOKEN_GREEN`: both buckets are restored, the idle pool
pays and the answer is `QOS_TOKEN_ORANGE`, with `_idle_bucket = 2^63 - 1` afterwards. -/
theorem get_token_negative_count_wraps :
    find kernel_A._user_map (make_key "A" "x") = some node_A ∧
    0 ≤ node_A.c_bucket.val ∧ (-9223372036854775807 : int64_t).val ≤ 0 ∧
    (get_token kernel_A "A" "x" (-9223372036854775807)).1 = QOS_TOKEN_ORANGE ∧
    find (get_token kernel_A "A" "x" (-9223372036854775807)).2._user_map (make_key "A" "x") =
      some { node_A with running := true } ∧
    (get_token kernel_A "A" "x" (-9223372036854775807)).2._idle_bucket.val =
      9223372036854775807 := by
  refine ⟨by decide, by decide, by decide, by decide, by decide, by decide⟩

/-- C19, amended: the token count is not validated. For a registered tenant with
`0 ≤ c_bucket` and any `n ≤ 0` with `c_bucket - n ≤ 2^63 - 1`, `get_token` returns
`QOS_TOKEN_GREEN` and leaves `c_bucket - n` in the primary bucket; and there is a registered
tenant and a negative `n` for which one call returns `QOS_TOKEN_GREEN` and leaves the primary
bucket above the quota. -/
theorem get_token_count_not_validated :
    (∀ (s : QosKernal) (user_name product : String) (n : int64_t) (u : UserNode),
      find s._user_map (make_key user_name product) = some u → 0 ≤ u.c_bucket.val →
      n.val ≤ 0 → u.c_bucket.val - n.val ≤ 9223372036854775807 →
      (get_token s user_name product n).1 = QOS_TOKEN_GREEN ∧
      ∃ u1, find (get_token s user_name product n).2._user_map (make_key user_name product) =
          some u1 ∧
        u1.c_bucket.val = u.c_bucket.val - n.val ∧ u1.e_bucket = u.e_bucket ∧
        u1.qos_limit = u.qos_limit ∧ u1.running = true) ∧
    (∃ (s : QosKernal) (user_name product : String) (n : int64_t) (u u1 : UserNode),
      n.val < 0 ∧ find s._user_map (make_key user_name product) = some u ∧
      (get_token s user_name product n).1 = QOS_TOKEN_GREEN ∧
      find (get_token s user_name product n).2._user_map (make_key user_name product) =
        some u1 ∧ u1.qos_limit = u.qos_limit ∧ u1.qos_limit.val < u1.c_bucket.val) := by
  refine ⟨fun s user_name product n u hfind hc hn hmax => ?_,
    kernel_A, "A", "x", -5, node_A, ⟨"A", "x", 10, 15, 10, true⟩, by decide, by decide,
    by decide, by decide, by decide, by decide⟩
  have hx := sub_val_exact u.c_bucket n (by omega) hmax
  rw [get_token_green s user_name product n u hfind (by omega)]
  exact ⟨rfl, _, find_store_same _ _ u _ hfind, hx, rfl, rfl, rfl⟩

theorem get_token_count_not_validated_witness :
    (get_token kernel_A "A" "x" (-5)).1 = QOS_TOKEN_GREEN ∧
    ∃ u1, find (get_token kernel_A "A" "x" (-5)).2._user_map (make_key "A" "x") = some u1 ∧
      u1.c_bucket.val = node_A.c_bucket.val - (-5 : int64_t).val ∧
      u1.e_bucket = node_A.e_bucket ∧ u1.qos_limit = node_A.qos_limit ∧ u1.running = true :=
  get_token_count_not_validated.1 kernel_A "A" "x" (-5) node_A (by decide) (by decide)
    (by decide) (by decide)

end Qos
